import Mathlib

/-!
Verification of the emrun execution engine against its specification.

The Go sources are shallowly embedded:
* bytes are `Nat` (values < 256 where it matters), byte slices are `List Nat`,
  Go strings are `List Char`;
* Go maps `map [32]byte struct{}` and the `*executionPolicy` structs they live
  in are heap cells addressed by `Nat` indices, so that the clone-on-derive
  (copy-on-write) discipline of `policy.go` is observable: a shallow copy that
  shared map cells would be distinguishable from the deep copy the code makes;
* `context.Context` is a value carrying an optional reference to a policy cell,
  matching `context.WithValue` semantics (contexts themselves are immutable).
-/

namespace Emrun

/-- A SHA-256 digest: a list of byte values (32 of them for real digests). -/
abbrev Digest := List Nat

/-- `Verdict` from policy.go. Go backs it with `int`; only `ALLOW` and `DENY`
are ever attached by the configuration helpers, other values make
`WithRuleCatchError` fail before touching any policy, so the two-valued
embedding covers every reachable policy. -/
inductive Verdict
  | ALLOW
  | DENY
deriving DecidableEq, Repr

/-- `PolicyError` from policy.go: the verdict and the hex digest it reports. -/
structure PolicyError where
  verdict : Verdict
  digest : List Char
deriving DecidableEq, Repr

/-- The struct `executionPolicy`, with its two Go maps replaced by indices of
heap cells (`allowIx`, `denyIx`) so aliasing between policies is explicit. -/
structure PolicyObj where
  defaultVerdict : Verdict
  allowIx : Nat
  denyIx : Nat
deriving DecidableEq, Repr

/-- Heap for the policy engine: `sets` are the digest-set cells backing the Go
maps, `policies` the `*executionPolicy` cells. Allocation appends. -/
structure Heap where
  sets : List (List Digest)
  policies : List PolicyObj
deriving DecidableEq, Repr

/-- A context value: `context.Context` carrying the `policyKey{}` value, i.e.
an optional reference to a policy cell (`none` both for a nil context and for a
context with no policy attached, exactly the cases where `policyFromContext`
returns nil). -/
structure Ctx where
  policy : Option Nat
deriving DecidableEq, Repr

/-- The empty heap (program start: no policy allocated). -/
def emptyHeap : Heap := ⟨[], []⟩

/-- Dereference a digest-set cell (Go map read; missing cell reads empty). -/
def readSet (h : Heap) (i : Nat) : List Digest := h.sets.getD i []

/-- Go map insert `m[digest] = struct{}{}` on a digest-set value. -/
def setInsert (s : List Digest) (d : Digest) : List Digest :=
  if d ∈ s then s else s ++ [d]

/-- Go `delete(m, digest)` on a digest-set value. -/
def setDelete (s : List Digest) (d : Digest) : List Digest :=
  s.filter (fun x => x ≠ d)

/-- Store a new value in a digest-set cell. -/
def writeSet (h : Heap) (i : Nat) (s : List Digest) : Heap :=
  { h with sets := h.sets.set i s }

/-- Allocate a policy cell with two fresh digest-set cells holding the given
contents. Shared helper for `newExecutionPolicy` and `clone`, both of which
build a policy whose maps are freshly allocated. Returns the heap and the new
policy's index. -/
def allocPolicy (h : Heap) (dv : Verdict) (al de : List Digest) : Heap × Nat :=
  let aIx := h.sets.length
  let h1 : Heap := { h with sets := h.sets ++ [al, de] }
  ({ h1 with policies := h1.policies ++ [⟨dv, aIx, aIx + 1⟩] }, h.policies.length)

/-- `newExecutionPolicy` from policy.go: default `ALLOW`, empty maps. -/
def newExecutionPolicy (h : Heap) : Heap × Nat :=
  allocPolicy h .ALLOW [] []

/-- `executionPolicy.clone` from policy.go, called through `policyFromContext`:
a nil policy clones to a fresh empty policy; otherwise the default verdict is
kept and both digest sets are copied into fresh map cells. -/
def clonePolicy (h : Heap) (ref : Option Nat) : Heap × Nat :=
  match ref with
  | none => newExecutionPolicy h
  | some ix =>
    match h.policies[ix]? with
    | none => newExecutionPolicy h
    | some p => allocPolicy h p.defaultVerdict (readSet h p.allowIx) (readSet h p.denyIx)

/-- `executionPolicy.evaluate` from policy.go, with the receiver-nil check
folded into the `Option Nat` reference: deny membership first, then allow
membership, then the default verdict. -/
def evaluate (h : Heap) (ref : Option Nat) (d : Digest) : Verdict :=
  match ref with
  | none => .ALLOW
  | some ix =>
    match h.policies[ix]? with
    | none => .ALLOW
    | some p =>
      if d ∈ readSet h p.denyIx then .DENY
      else if d ∈ readSet h p.allowIx then .ALLOW
      else p.defaultVerdict

/-- `enforcePolicy`/`CheckPolicy` from policy.go: no attached policy means nil
error; otherwise an `ALLOW` evaluation is nil and a `DENY` evaluation is a
`PolicyError` carrying the hex digest. -/
def checkPolicy (h : Heap) (c : Ctx) (d : Digest) (hexd : List Char) : Option PolicyError :=
  match c.policy with
  | none => none
  | some ix =>
    match evaluate h (some ix) d with
    | .ALLOW => none
    | .DENY => some ⟨.DENY, hexd⟩

/-- `WithPolicy` from policy.go: clone the context policy (or make a fresh
one), overwrite the clone's default verdict in place, attach the clone to a
derived context. -/
def withPolicy (h : Heap) (c : Ctx) (v : Verdict) : Heap × Ctx :=
  let (h1, ix) := clonePolicy h c.policy
  let p := h1.policies.getD ix ⟨.ALLOW, 0, 0⟩
  ({ h1 with policies := h1.policies.set ix { p with defaultVerdict := v } }, ⟨some ix⟩)

/-- `Verdict.String` from policy.go (the `default` arm prints the raw value,
unreachable for the two modelled verdicts). -/
def verdictString : Verdict → List Char
  | .ALLOW => "allow".toList
  | .DENY => "deny".toList

/-- Go error values relevant to the engine, as a syntax tree mirroring the
wrapping structure `errors.Is`/`errors.As` walk: `pathErr` is
`*os.PathError{Err: e}` (its Op/Path strings are dropped, they never influence
classification), `execErr` is `*exec.Error{Err: e}`, `wrap` is
`fmt.Errorf` with one `%w` verb and `wrap2` with two (`Unwrap() []error`). -/
inductive GoErr
  | errPermission
  | eacces
  | eperm
  | errDenied
  | policyErr (e : PolicyError)
  | errPayloadIsEmpty
  | errNotInmemoryFd
  | exitErr (code : Int)
  | pathErr (e : GoErr)
  | execErr (e : GoErr)
  | simple (msg : List Char)
  | wrap (pre : List Char) (e : GoErr)
  | wrap2 (pre mid : List Char) (a b : GoErr)
deriving DecidableEq, Repr

/-- `Error()` rendering of the modelled errors. `pathErr`/`execErr` render just
their cause (the dropped Op/Path prefixes never matter to the claims);
`wrap`/`wrap2` render the format string with the causes spliced in, exactly the
shape `fmt.Errorf` with `%w` produces. -/
def errText : GoErr → List Char
  | .errPermission => "permission denied".toList
  | .eacces => "permission denied".toList
  | .eperm => "operation not permitted".toList
  | .errDenied => "emrun: execution denied by policy".toList
  | .policyErr e => "emrun: ".toList ++ verdictString e.verdict ++ " digest ".toList ++ e.digest
  | .errPayloadIsEmpty => "payload is empty".toList
  | .errNotInmemoryFd => "not an in-memory file descriptor".toList
  | .exitErr _ => "exit status".toList
  | .pathErr e => errText e
  | .execErr e => errText e
  | .simple m => m
  | .wrap pre e => pre ++ errText e
  | .wrap2 pre mid a b => pre ++ errText a ++ mid ++ errText b

/-- The `Is` methods consulted by `errors.Is`: `(*PolicyError).Is` matches the
`ErrDenied` sentinel; `syscall.Errno.Is` matches `os.ErrPermission` for
`EACCES`/`EPERM`. -/
def errIsMethod : GoErr → GoErr → Bool
  | .policyErr _, t => t == .errDenied
  | .eacces, t => t == .errPermission
  | .eperm, t => t == .errPermission
  | _, _ => false

/-- `errors.Is`: equality with the target, the `Is` method, then the unwrap
chain (both branches of a two-`%w` wrap). -/
def errorsIs (e t : GoErr) : Bool :=
  e == t || errIsMethod e t ||
  match e with
  | .pathErr e1 => errorsIs e1 t
  | .execErr e1 => errorsIs e1 t
  | .wrap _ e1 => errorsIs e1 t
  | .wrap2 _ _ a b => errorsIs a t || errorsIs b t
  | _ => false

/-- `errors.As` targeting `*os.PathError`: the first such node in the unwrap
chain, returning its wrapped cause (`pathErr.Err`). -/
def asPathErr : GoErr → Option GoErr
  | .pathErr e => some e
  | .execErr e => asPathErr e
  | .wrap _ e => asPathErr e
  | .wrap2 _ _ a b => (asPathErr a).orElse (fun _ => asPathErr b)
  | _ => none

/-- `errors.As` targeting `*exec.Error`. -/
def asExecErr : GoErr → Option GoErr
  | .execErr e => some e
  | .pathErr e => asExecErr e
  | .wrap _ e => asExecErr e
  | .wrap2 _ _ a b => (asExecErr a).orElse (fun _ => asExecErr b)
  | _ => none

/-- `errors.As` targeting `*exec.ExitError`, yielding its exit code. -/
def asExitErr : GoErr → Option Int
  | .exitErr c => some c
  | .pathErr e => asExitErr e
  | .execErr e => asExitErr e
  | .wrap _ e => asExitErr e
  | .wrap2 _ _ a b => (asExitErr a).orElse (fun _ => asExitErr b)
  | _ => none

/-- `isPermissionErr` from runnable.go, with its early returns: a hit on
`os.ErrPermission` anywhere; else, if a `*os.PathError` is found its cause
decides alone; else likewise for `*exec.Error`; else the raw errno checks. -/
def isPermissionErr (e : GoErr) : Bool :=
  if errorsIs e .errPermission then true
  else
    match asPathErr e with
    | some inner => errorsIs inner .errPermission || errorsIs inner .eacces || errorsIs inner .eperm
    | none =>
      match asExecErr e with
      | some inner => errorsIs inner .errPermission || errorsIs inner .eacces || errorsIs inner .eperm
      | none => errorsIs e .eacces || errorsIs e .eperm

/-! ## Digest-source parsing (policy.go lines 168-299) -/

/-- Lowercase hex digit of a value below 16 (encoding/hex alphabet). -/
def hexDigitChar (n : Nat) : Char :=
  if n < 10 then Char.ofNat (48 + n) else Char.ofNat (97 + (n - 10))

/-- Hex encoding of one byte (`% 256` is the 8-bit range of a Go byte). -/
def encodeByte (b : Nat) : List Char :=
  [hexDigitChar ((b % 256) / 16), hexDigitChar (b % 16)]

/-- `hex.EncodeToString` over a byte slice. -/
def hexEncode (bs : List Nat) : List Char := (bs.map encodeByte).flatten

/-- Value of a hex digit character, if it is one. -/
def hexDigitVal (c : Char) : Option Nat :=
  if '0' ≤ c ∧ c ≤ '9' then some (c.toNat - 48)
  else if 'a' ≤ c ∧ c ≤ 'f' then some (c.toNat - 97 + 10)
  else if 'A' ≤ c ∧ c ≤ 'F' then some (c.toNat - 65 + 10)
  else none

/-- `hex.DecodeString`: pairs of hex digits to bytes, failing on odd length or
a non-hex character. -/
def hexDecode : List Char → Option (List Nat)
  | [] => some []
  | _ :: [] => none
  | c1 :: c2 :: rest =>
    match hexDigitVal c1, hexDigitVal c2, hexDecode rest with
    | some hi, some lo, some bs => some ((16 * hi + lo) :: bs)
    | _, _, _ => none

/-- A hex character per `isHexString`'s rune loop. -/
def isHexChar (c : Char) : Bool :=
  ('0' ≤ c && c ≤ '9') || ('a' ≤ c && c ≤ 'f') || ('A' ≤ c && c ≤ 'F')

/-- `isHexString` from policy.go: non-empty and all hex characters. -/
def isHexString (s : List Char) : Bool :=
  !s.isEmpty && s.all isHexChar

/-- `unicode.IsSpace` restricted to the ASCII range (the only characters the
parsing logic and claims exercise). -/
def isSpaceChar (c : Char) : Bool :=
  c = ' ' || c = '\t' || c = '\n' || c = Char.ofNat 11 || c = Char.ofNat 12 || c = '\r'

/-- `strings.TrimSpace`. -/
def trimSpace (s : List Char) : List Char :=
  ((s.dropWhile isSpaceChar).reverse.dropWhile isSpaceChar).reverse

/-- `strings.ContainsAny`. -/
def containsAnyOf (s probe : List Char) : Bool :=
  s.any (fun c => probe.contains c)

/-- `dropCR` from bufio.ScanLines: strip one trailing carriage return. -/
def dropCR (l : List Char) : List Char :=
  if l.getLast? = some '\r' then l.dropLast else l

/-- Accumulator loop of `bufio.Scanner` with `ScanLines`: emit a token at each
newline, and the remainder at end of input; a trailing newline produces no
extra empty token. -/
def scanLinesAux : List Char → List Char → List (List Char)
  | [], acc => [dropCR acc.reverse]
  | c :: rest, acc =>
    if c = '\n' then
      dropCR acc.reverse :: (if rest.isEmpty then [] else scanLinesAux rest [])
    else scanLinesAux rest (c :: acc)

/-- Tokens of `bufio.Scanner`/`ScanLines` over the whole input (empty input
yields no token at all). -/
def scanLines (s : List Char) : List (List Char) :=
  if s.isEmpty then [] else scanLinesAux s []

/-- `decodeSingleDigest` from policy.go. -/
def decodeSingleDigest (s : List Char) : Except GoErr (List Digest) :=
  match hexDecode s with
  | none => .error (.simple ("decode sha256 digest".toList))
  | some bs =>
    if bs.length ≠ 32 then .error (.simple ("unexpected digest length".toList))
    else .ok [bs]

/-- The scanner loop of `digestsFromString`: per line, trim, skip blanks and
`#` comments, require at least 64 characters, take the leading 64, require hex
and decode them (`copy` into the 32-byte array is the decoded bytes). -/
def digestsFromLines : List (List Char) → Except GoErr (List Digest)
  | [] => .ok []
  | l :: rest =>
    let line := trimSpace l
    if line.isEmpty || line.head? = some '#' then digestsFromLines rest
    else if line.length < 64 then .error (.simple ("line shorter than sha256 digest".toList))
    else
      let candidate := line.take 64
      if !isHexString candidate then .error (.simple ("invalid sha256 digest".toList))
      else
        match hexDecode candidate with
        | none => .error (.simple ("decode sha256 digest".toList))
        | some bs =>
          match digestsFromLines rest with
          | .error e => .error e
          | .ok ds => .ok (bs :: ds)

/-- `digestsFromString` from policy.go: a trimmed-empty input parses to no
digests; a single whitespace-free 64-character hex token decodes directly;
anything else goes through the line scanner. -/
def digestsFromString (value : List Char) : Except GoErr (List Digest) :=
  let trimmed := trimSpace value
  if trimmed.isEmpty then .ok []
  else if !containsAnyOf trimmed (' ' :: '\t' :: '\n' :: '\r' :: [])
      && trimmed.length = 64 && isHexString trimmed then
    decodeSingleDigest trimmed
  else digestsFromLines (scanLines value)

/-- Go `string(data)` for the byte sequences the policy layer sees; faithful
for ASCII content (multi-byte UTF-8 is not modelled, no claim exercises it). -/
def bytesToChars (bs : List Nat) : List Char := bs.map (fun b => Char.ofNat b)

/-- `digestsFromBytes` from policy.go: empty is no digests, exactly 32 bytes
is one raw digest, exactly 64 hex characters decode, anything else is parsed
as checksum-file text. -/
def digestsFromBytes (data : List Nat) : Except GoErr (List Digest) :=
  if data.length = 0 then .ok []
  else if data.length = 32 then .ok [data]
  else if data.length = 64 && isHexString (bytesToChars data) then
    decodeSingleDigest (bytesToChars data)
  else digestsFromString (bytesToChars data)

/-- The dynamic types accepted by `collectDigests` (`Digest` is `any` in the
source): a nil entry, a `[32]byte`, a `*[32]byte`, a `[]byte`, a `[][]byte`, a
`string`, a `fmt.Stringer` (its `String()` result), an `io.Reader` (its fully
read contents; read errors are not modelled), or an unsupported type. -/
inductive DigestSource
  | nilValue
  | raw32 (d : Digest)
  | ptr32 (d : Option Digest)
  | byteSlice (data : List Nat)
  | byteSlices (ds : List (List Nat))
  | str (s : List Char)
  | stringer (s : List Char)
  | reader (data : List Nat)
  | unsupported
deriving DecidableEq, Repr

/-- The `[][]byte` arm of `collectDigests`. -/
def digestsFromBytesList : List (List Nat) → Except GoErr (List Digest)
  | [] => .ok []
  | e :: rest =>
    match digestsFromBytes e with
    | .error err => .error err
    | .ok ds =>
      match digestsFromBytesList rest with
      | .error err => .error err
      | .ok more => .ok (ds ++ more)

/-- One arm of the `collectDigests` type switch. -/
def collectOne : DigestSource → Except GoErr (List Digest)
  | .nilValue => .ok []
  | .raw32 d => .ok [d]
  | .ptr32 none => .ok []
  | .ptr32 (some d) => .ok [d]
  | .byteSlice data => digestsFromBytes data
  | .byteSlices ds => digestsFromBytesList ds
  | .str s => digestsFromString s
  | .stringer s => digestsFromString s
  | .reader data => digestsFromBytes data
  | .unsupported => .error (.simple ("unsupported checksum type".toList))

/-- `collectDigests` from policy.go: concatenate per-source digests,
propagating the first error. -/
def collectDigests : List DigestSource → Except GoErr (List Digest)
  | [] => .ok []
  | v :: rest =>
    match collectOne v with
    | .error e => .error e
    | .ok ds =>
      match collectDigests rest with
      | .error e => .error e
      | .ok more => .ok (ds ++ more)

/-- One iteration of the `WithRuleCatchError` insertion loop: insert the
digest in the set matching the rule and delete it from the opposite set. -/
def applyRuleDigest (h : Heap) (p : PolicyObj) (rule : Verdict) (d : Digest) : Heap :=
  match rule with
  | .ALLOW =>
    let h1 := writeSet h p.allowIx (setInsert (readSet h p.allowIx) d)
    writeSet h1 p.denyIx (setDelete (readSet h1 p.denyIx) d)
  | .DENY =>
    let h1 := writeSet h p.denyIx (setInsert (readSet h p.denyIx) d)
    writeSet h1 p.allowIx (setDelete (readSet h1 p.allowIx) d)

/-- The full insertion loop of `WithRuleCatchError`. -/
def applyRuleDigests (h : Heap) (p : PolicyObj) (rule : Verdict) : List Digest → Heap
  | [] => h
  | d :: rest => applyRuleDigests (applyRuleDigest h p rule d) p rule rest

/-- `WithRuleCatchError` from policy.go: no sources returns the context
unchanged; otherwise clone the context policy (before parsing, as the source
does), parse, and on success mutate the clone's freshly allocated sets and
attach the clone to a derived context; on a parse error return the original
context. `WithRule` is the same followed by a panic on error, so its successes
coincide with these. -/
def withRuleCatchError (h : Heap) (c : Ctx) (rule : Verdict) (sources : List DigestSource) :
    Heap × Ctx × Option GoErr :=
  if sources.isEmpty then (h, c, none)
  else
    let (h1, ix) := clonePolicy h c.policy
    match collectDigests sources with
    | .error e => (h1, c, some e)
    | .ok ds =>
      let p := h1.policies.getD ix ⟨.ALLOW, 0, 0⟩
      (applyRuleDigests h1 p rule ds, ⟨some ix⟩, none)

/-! ## OS files and the runnable handle (runnable.go, emrun.go, efrun/efrun.go) -/

/-- An OS file handle: its byte contents, current offset, name, and whether
the descriptor has been closed. -/
structure OsFile where
  contents : List Nat
  pos : Nat
  closed : Bool
  fname : List Char
deriving DecidableEq, Repr

/-- A write at the current offset (overwriting then extending), as `os.File`
writes behave. -/
def fileWrite (f : OsFile) (data : List Nat) : OsFile :=
  { f with
    contents := f.contents.take f.pos ++ data ++ f.contents.drop (f.pos + data.length),
    pos := f.pos + data.length }

/-- The name shape of an anonymous memfd handle. -/
def memfdShape : List Char := "/proc/self/fd/".toList

/-- Outcomes of the OS calls the handle makes, fixed per scenario: each
operation either fails with the given error or succeeds; `tempDir`/`tempRand`
determine the name `os.CreateTemp` hands back; `memfdNum` the descriptor
number `unix.MemfdCreate` returns. -/
structure OsEnv where
  memfdErr : Option GoErr
  memfdNum : Nat
  memfdWriteErr : Option GoErr
  createTempErr : Option GoErr
  tempDir : List Char
  tempRand : List Char
  tempWriteErr : Option GoErr
  tempCloseErr : Option GoErr
  chmodErr : Option GoErr
  reopenErr : Option GoErr
deriving DecidableEq, Repr

/-- The name `os.CreateTemp("", hexdigest+"-*")` produces. -/
def mkTempName (env : OsEnv) (hexd : List Char) : List Char :=
  env.tempDir ++ ('/' :: []) ++ hexd ++ ('-' :: []) ++ env.tempRand

/-- The `runnable` struct of runnable.go: payload, open file plus the `closer`
sentinel, backing name, cached digest (hex and raw), delete-on-close flag.
The runner is modelled separately as a `RunnerState`. -/
structure RunnableState where
  payload : List Nat
  file : Option OsFile
  closerPresent : Bool
  name : List Char
  sha256hex : List Char
  sha256 : Digest
  deleteOnClose : Bool
deriving DecidableEq, Repr

/-- `IsMemfd` from runnable.go: the name has the `/proc/self/fd/` shape. -/
def isMemfd (r : RunnableState) : Bool :=
  memfdShape.isPrefixOf r.name

/-- `ensureDigest` from runnable.go: return the cached pair when the hex cache
is non-empty (even when the raw 32-byte field was never filled in), otherwise
hash the payload and fill both caches. -/
def ensureDigest (sha : List Nat → Digest) (r : RunnableState) :
    RunnableState × Digest × List Char :=
  if r.sha256hex ≠ [] then (r, r.sha256, r.sha256hex)
  else
    let sum := sha r.payload
    ({ r with sha256 := sum, sha256hex := hexEncode sum }, sum, hexEncode sum)

/-- `Name` from runnable.go. -/
def rName (r : RunnableState) : List Char :=
  if r.name = [] ∧ r.file.isSome then
    (match r.file with | some f => f.fname | none => [])
  else r.name

/-- `Close` from runnable.go: close the file when the closer is still held,
then remove the temporary file when owned. Closing and removal succeed in
this model (their errors are never exercised by the claims), so the combined
error reporting collapses to `none`. -/
def rClose (r : RunnableState) : RunnableState × Option GoErr :=
  let r1 :=
    if r.file.isSome ∧ r.closerPresent then
      { r with file := r.file.map (fun f => { f with closed := true }), closerPresent := false }
    else r
  if r1.deleteOnClose ∧ r1.name ≠ [] then
    ({ r1 with deleteOnClose := false }, none)
  else (r1, none)

/-- `switchToTemporaryFile` from runnable.go: refuse unless currently memfd
backed, refuse an empty payload, close the previous backing, ensure the
digest, create a temporary file named after the hex digest, write the payload,
close the descriptor, chmod to owner rwx; each failing OS step produces the
wrapped error of the source. -/
def switchToTemporaryFile (env : OsEnv) (sha : List Nat → Digest) (r : RunnableState) :
    RunnableState × Option GoErr :=
  if !(isMemfd r) then (r, some .errNotInmemoryFd)
  else if r.payload.isEmpty then (r, some .errPayloadIsEmpty)
  else
    let (r1, _) := rClose r
    let (r2, _, _) := ensureDigest sha r1
    match env.createTempErr with
    | some e => (r2, some e)
    | none =>
      let nm := mkTempName env r2.sha256hex
      let tmpf : OsFile := { contents := [], pos := 0, closed := false, fname := nm }
      let r3 := { r2 with file := some tmpf, closerPresent := true, name := nm, deleteOnClose := true }
      match env.tempWriteErr with
      | some e =>
        let (r4, cerr) := rClose r3
        match cerr with
        | some ce =>
          (r4, some (.wrap2 "unable to write to temporary file: ".toList
            "; unable to close temporary file: ".toList e ce))
        | none => (r4, some (.wrap "unable to write to temporary file: ".toList e))
      | none =>
        let written := fileWrite tmpf r3.payload
        let r4 := { r3 with file := some { written with closed := true }, closerPresent := false }
        match env.chmodErr with
        | some e =>
          let (r5, cerr) := rClose r4
          match cerr with
          | some ce =>
            (r5, some (.wrap2 "unable to chmod temporary file: ".toList
              "; unable to close temporary file: ".toList e ce))
          | none => (r5, some (.wrap "chmod +x: ".toList e))
        | none => (r4, none)

/-- `io.SeekStart` and friends. -/
inductive Whence
  | start
  | current
  | endPos
deriving DecidableEq, Repr

/-- `os.File.Seek`. -/
def fileSeek (f : OsFile) (off : Int) (w : Whence) : OsFile × Int :=
  let newPos : Int :=
    match w with
    | .start => off
    | .current => (f.pos : Int) + off
    | .endPos => (f.contents.length : Int) + off
  ({ f with pos := newPos.toNat }, newPos)

/-- `os.ErrInvalid`. -/
def errInvalid : GoErr := .simple "invalid argument".toList

/-- `Seek` from runnable.go: `os.ErrInvalid` on a nil file, an OS error on a
closed descriptor, otherwise the file seek. -/
def rSeek (r : RunnableState) (off : Int) (w : Whence) :
    Except GoErr (RunnableState × Int) :=
  match r.file with
  | none => .error errInvalid
  | some f =>
    if f.closed then .error (.simple "file already closed".toList)
    else
      let (f1, p) := fileSeek f off w
      .ok ({ r with file := some f1 }, p)

/-- `io.ReadAll` over the handle's `Read` from runnable.go: everything from
the current offset to the end. -/
def rReadAll (r : RunnableState) : Except GoErr (RunnableState × List Nat) :=
  match r.file with
  | none => .error errInvalid
  | some f =>
    if f.closed then .error (.simple "file already closed".toList)
    else .ok ({ r with file := some { f with pos := f.contents.length } }, f.contents.drop f.pos)

/-- Decimal rendering of the memfd descriptor number. -/
def natDigits (n : Nat) : List Char := (toString n).toList

/-- `Open` from emrun.go (lines 290-319): build the handle with the payload
and its hex digest (the raw `sha256` field is left at its Go zero value, 32
zero bytes), try `unix.MemfdCreate`; on failure fall through to
`switchToTemporaryFile`; on success name the handle `/proc/self/fd/<fd>` and
write the payload into the anonymous file. -/
def openEmrun (env : OsEnv) (sha : List Nat → Digest) (payload : List Nat) :
    Except GoErr RunnableState :=
  let r0 : RunnableState :=
    { payload := payload, file := none, closerPresent := false, name := [],
      sha256hex := hexEncode (sha payload), sha256 := List.replicate 32 0,
      deleteOnClose := false }
  match env.memfdErr with
  | some _ =>
    match switchToTemporaryFile env sha r0 with
    | (_, some serr) => .error serr
    | (r1, none) => .ok r1
  | none =>
    let nm := memfdShape ++ natDigits env.memfdNum
    let f : OsFile := { contents := [], pos := 0, closed := false, fname := nm }
    let r1 := { r0 with name := nm, file := some f, closerPresent := true, deleteOnClose := false }
    match env.memfdWriteErr with
    | some e => .error (.wrap "unable to write payload: ".toList e)
    | none => .ok { r1 with file := some (fileWrite f payload) }

/-- The `runnable` struct of efrun/efrun.go (no separate closer field). -/
structure EfRunnable where
  payload : List Nat
  file : Option OsFile
  name : List Char
  sha256hex : List Char
  deleteOnClose : Bool
deriving DecidableEq, Repr

/-- `writeToTemporaryFile` from efrun/efrun.go (lines 119-149): create, write,
close, chmod, reopen for reading; on any failure the deferred cleanup closes
and removes the file. The second component lists the temporary files that
still exist when the call returns. -/
def efWriteToTemporaryFile (env : OsEnv) (r : EfRunnable) :
    Except GoErr EfRunnable × List (List Char) :=
  match env.createTempErr with
  | some e => (.error e, [])
  | none =>
    let nm := mkTempName env r.sha256hex
    match env.tempWriteErr with
    | some e => (.error (.wrap "unable to write to temporary file: ".toList e), [])
    | none =>
      match env.tempCloseErr with
      | some e => (.error (.wrap "close temporary file: ".toList e), [])
      | none =>
        match env.chmodErr with
        | some e => (.error (.wrap "chmod +x: ".toList e), [])
        | none =>
          match env.reopenErr with
          | some e => (.error (.wrap "reopen temporary file: ".toList e), [])
          | none =>
            (.ok { r with
                file := some { contents := r.payload, pos := 0, closed := false, fname := nm },
                name := nm },
             [nm])

/-- `Open` from efrun/efrun.go (lines 103-117): an empty payload is rejected
with `ERR_PAYLOAD_IS_EMPTY` before any OS work; otherwise the handle is built
and written to a temporary file. The second component lists the temporary
files that exist when the call returns. -/
def openEfrun (env : OsEnv) (sha : List Nat → Digest) (payload : List Nat) :
    Except GoErr EfRunnable × List (List Char) :=
  if payload.isEmpty then (.error .errPayloadIsEmpty, [])
  else
    let r : EfRunnable :=
      { payload := payload, file := none, name := [],
        sha256hex := hexEncode (sha payload), deleteOnClose := true }
    efWriteToTemporaryFile env r

/-- `Seek` from efrun/efrun.go. -/
def efSeek (r : EfRunnable) (off : Int) (w : Whence) :
    Except GoErr (EfRunnable × Int) :=
  match r.file with
  | none => .error errInvalid
  | some f =>
    if f.closed then .error (.simple "file already closed".toList)
    else
      let (f1, p) := fileSeek f off w
      .ok ({ r with file := some f1 }, p)

/-- `io.ReadAll` over `Read` from efrun/efrun.go. -/
def efReadAll (r : EfRunnable) : Except GoErr (EfRunnable × List Nat) :=
  match r.file with
  | none => .error errInvalid
  | some f =>
    if f.closed then .error (.simple "file already closed".toList)
    else .ok ({ r with file := some { f with pos := f.contents.length } }, f.contents.drop f.pos)

/-! ## Prepared invocations, capture and the runner (executil.go, adapters) -/

/-- A stdout/stderr/stdin binding: a caller-supplied stream (identified
abstractly) or the buffer `newCommandCapture` installs. -/
inductive StdBinding
  | external (id : Nat)
  | captureBuf
deriving DecidableEq, Repr

/-- The fields of `exec.Cmd` the engine reads, writes or must preserve across
the fallback rewrite. -/
structure Cmd where
  path : List Char
  args : List (List Char)
  env : List (List Char)
  dir : List Char
  stdin : Option StdBinding
  stdout : Option StdBinding
  stderr : Option StdBinding
  extraFiles : Option (List Nat)
  sysProcAttr : Option Nat
  waitDelay : Nat
deriving DecidableEq, Repr

/-- `exec.CommandContext(ctx, path, args...)` for a path containing a slash:
`Path` is the name as given and `Args` is the name followed by the arguments.
The context only drives cancellation, which is outside this model. -/
def commandContext (path : List Char) (args : List (List Char)) : Cmd :=
  { path := path, args := path :: args, env := [], dir := [], stdin := none,
    stdout := none, stderr := none, extraFiles := none, sysProcAttr := none,
    waitDelay := 0 }

/-- `cloneCommandForFallback` from runnable.go: clone the argument vector with
its first element replaced by the new path (or a singleton vector when it was
empty), rebuild the command on the new path, and carry over environment,
directory, stdio bindings, extra files, `SysProcAttr` and `WaitDelay`
(`slices.Clone` is the identity on these immutable values). -/
def cloneCommandForFallback (cmd : Cmd) (path : List Char) : Cmd :=
  let origArgs := if cmd.args.isEmpty then [path] else path :: cmd.args.tail
  { commandContext path [] with
    args := origArgs,
    path := origArgs.getD 0 path,
    env := cmd.env, dir := cmd.dir, stdin := cmd.stdin, stdout := cmd.stdout,
    stderr := cmd.stderr, extraFiles := cmd.extraFiles,
    sysProcAttr := cmd.sysProcAttr, waitDelay := cmd.waitDelay }

/-- The `commandcapture` adapter state: whether capture is enabled and the
original bindings its `Restore` puts back. -/
structure Capture where
  enabled : Bool
  origStdout : Option StdBinding
  origStderr : Option StdBinding
deriving DecidableEq, Repr

/-- `newCommandCapture` from executil.go: without combined output the capture
stays disabled and the command untouched; with combined output the command
must not have stdout or stderr configured, and both are redirected into the
shared buffer. -/
def newCommandCapture (cmd : Cmd) (combined : Bool) : Except GoErr (Capture × Cmd) :=
  if !combined then .ok ({ enabled := false, origStdout := none, origStderr := none }, cmd)
  else if cmd.stdout.isSome || cmd.stderr.isSome then
    .error (.simple "combined output requested with configured stdout or stderr".toList)
  else
    .ok ({ enabled := true, origStdout := cmd.stdout, origStderr := cmd.stderr },
      { cmd with stdout := some .captureBuf, stderr := some .captureBuf })

/-- `Capture.Finish`: when enabled, hand out the buffered bytes and restore
the original bindings; when disabled, nil bytes and no change. -/
def captureFinish (cap : Capture) (cmd : Cmd) (buffered : List Nat) :
    Option (List Nat) × Cmd :=
  if cap.enabled then
    (some buffered, { cmd with stdout := cap.origStdout, stderr := cap.origStderr })
  else (none, cmd)

/-- One queued behaviour of the mock command runner: the error it returns and
the bytes it writes to the command's stdout while "running". -/
structure Behavior where
  err : Option GoErr
  output : List Nat
deriving DecidableEq, Repr

/-- The runner (adapters/mockrunner shape): a queue of behaviours consumed in
order by `Run`/`Start` alike, and the record of every invocation made, as the
full command snapshot at call time. -/
structure RunnerState where
  behaviors : List Behavior
  calls : List Cmd
deriving DecidableEq, Repr

/-- One runner invocation: record the command, consume the next behaviour
(no queued behaviour means success with no output). -/
def runnerInvoke (rs : RunnerState) (cmd : Cmd) : RunnerState × Option GoErr × List Nat :=
  match rs.behaviors with
  | [] => ({ rs with calls := rs.calls ++ [cmd] }, none, [])
  | b :: rest => ({ behaviors := rest, calls := rs.calls ++ [cmd] }, b.err, b.output)

/-- `RunCommand` from executil.go: set up capture, run through the runner,
then `Finish` (which restores the bindings); returns the captured bytes and
the run error, along with the command as left behind. -/
def runCommand (rs : RunnerState) (cmd : Cmd) (combined : Bool) :
    RunnerState × Option (List Nat) × Option GoErr × Cmd :=
  match newCommandCapture cmd combined with
  | .error e => (rs, none, some e, cmd)
  | .ok (cap, cmd1) =>
    let (rs1, err, out) := runnerInvoke rs cmd1
    let (bytes, cmd2) := captureFinish cap cmd1 out
    (rs1, bytes, err, cmd2)

/-- `StartCommand` from executil.go: set up capture, start through the runner;
on a start failure restore the capture and surface the error, otherwise hand
back the live capture, the started command, and the output the process will
have produced by wait time. -/
def startCommand (rs : RunnerState) (cmd : Cmd) (combined : Bool) :
    RunnerState × Except GoErr (Capture × Cmd × List Nat) :=
  match newCommandCapture cmd combined with
  | .error e => (rs, .error e)
  | .ok (cap, cmd1) =>
    let (rs1, err, out) := runnerInvoke rs cmd1
    match err with
    | some e => (rs1, .error e)
    | none => (rs1, .ok (cap, cmd1, out))

/-- `Run` from runnable.go: ensure the digest, enforce the policy, run once;
on success, done; on a non-permission error or a non-memfd backing, propagate;
otherwise switch to a temporary file (joining the two errors when the switch
fails) and re-run the rewritten clone of the original command. -/
def runnableRun (h : Heap) (c : Ctx) (env : OsEnv) (sha : List Nat → Digest)
    (rs : RunnerState) (r : RunnableState) (cmd : Cmd) (combined : Bool) :
    RunnerState × RunnableState × Option (List Nat) × Option GoErr :=
  let (r1, digest, hexd) := ensureDigest sha r
  match checkPolicy h c digest hexd with
  | some perr => (rs, r1, none, some (.policyErr perr))
  | none =>
    let (rs1, out, runErr, cmdA) := runCommand rs cmd combined
    match runErr with
    | none => (rs1, r1, out, none)
    | some err =>
      if !(isMemfd r1) || !(isPermissionErr err) then (rs1, r1, out, some err)
      else
        match switchToTemporaryFile env sha r1 with
        | (r2, some serr) =>
          (rs1, r2, out, some (.wrap2 "memfd execution failed: ".toList
            "; fallback to tempfile failed: ".toList err serr))
        | (r2, none) =>
          let fallback := cloneCommandForFallback cmdA (rName r2)
          let (rs2, out2, err2, _) := runCommand rs1 fallback combined
          (rs2, r2, out2, err2)

/-- How `runnable.StartBackground` comes out: a started command with its live
capture and pending output, a returned error, or a runtime panic — on a
fallback start failure the source calls `Restore` on the nil `CommandCapture`
that `StartCommand` returned alongside the error (runnable.go line 182), a
method call on a nil interface value. -/
inductive StartOutcome
  | ok (cmd : Cmd) (cap : Capture) (out : List Nat)
  | error (e : GoErr)
  | panicked
deriving DecidableEq, Repr

/-- `StartBackground` from runnable.go: like `Run` but through `StartCommand`.
When the fallback start also fails the function does not return the error: it
hits the nil-capture `Restore` and panics. -/
def runnableStartBackground (h : Heap) (c : Ctx) (env : OsEnv) (sha : List Nat → Digest)
    (rs : RunnerState) (r : RunnableState) (cmd : Cmd) (combined : Bool) :
    RunnerState × RunnableState × StartOutcome :=
  let (r1, digest, hexd) := ensureDigest sha r
  match checkPolicy h c digest hexd with
  | some perr => (rs, r1, .error (.policyErr perr))
  | none =>
    match startCommand rs cmd combined with
    | (rs1, .ok (cap, cmdStarted, out)) => (rs1, r1, .ok cmdStarted cap out)
    | (rs1, .error err) =>
      if !(isMemfd r1) || !(isPermissionErr err) then (rs1, r1, .error err)
      else
        match switchToTemporaryFile env sha r1 with
        | (r2, some serr) =>
          (rs1, r2, .error (.wrap2 "memfd execution failed: ".toList
            "; fallback to tempfile failed: ".toList err serr))
        | (r2, none) =>
          let fallback := cloneCommandForFallback cmd (rName r2)
          match startCommand rs1 fallback combined with
          | (rs2, .error _) => (rs2, r2, .panicked)
          | (rs2, .ok (cap2, cmd2, out2)) => (rs2, r2, .ok cmd2 cap2 out2)

/-! ## Results, the background orchestrator and waiting (executil.go, common.go) -/

/-- The `Result` struct of common.go. -/
structure ResultM where
  exitCode : Int
  error : Option GoErr
  combinedOutput : Option (List Nat)
deriving DecidableEq, Repr

/-- The zero `Result`. -/
def zeroResult : ResultM := { exitCode := 0, error := none, combinedOutput := none }

/-- What `cmd.Wait` reports for a scenario: its error and, when the process
state exists, the exit code it carries. -/
structure WaitOutcome where
  waitErr : Option GoErr
  procExit : Option Int
deriving DecidableEq, Repr

/-- `exitCodeFrom` from executil.go: the process state's code when available,
0 on a nil error, an `exec.ExitError`'s code (the modelled exit errors always
carry their state), else -1. -/
def exitCodeFrom (waitErr : Option GoErr) (state : Option Int) : Int :=
  match state with
  | some code => code
  | none =>
    match waitErr with
    | none => 0
    | some e =>
      match asExitErr e with
      | some code => code
      | none => -1

/-- `WaitCommand` from executil.go: wait, record error and exit code, then
collect the capture's bytes (a disabled capture yields nil bytes); `Finish`
also restores the command's bindings. -/
def waitCommand (wo : WaitOutcome) (cap : Capture) (buffered : List Nat) (cmd : Cmd) :
    ResultM × Cmd :=
  let res0 : ResultM :=
    { exitCode := exitCodeFrom wo.waitErr wo.procExit, error := wo.waitErr,
      combinedOutput := none }
  let (bytes, cmd1) := captureFinish cap cmd buffered
  ({ res0 with combinedOutput := bytes }, cmd1)

/-- The single-slot completion channel of a background job. -/
structure DoneChan where
  buffer : List ResultM
  closed : Bool
deriving DecidableEq, Repr

/-- A context as seen by the waiters: whether its `Done` channel is closed and
the error `ctx.Err()` then reports. -/
structure CtxWait where
  cancelled : Bool
  err : Option GoErr
deriving DecidableEq, Repr

/-- `context.Background()`: never done. -/
def backgroundCtx : CtxWait := { cancelled := false, err := none }

/-- `context.Canceled`. -/
def ctxCanceled : GoErr := .simple "context canceled".toList

/-- The child scope context of a finished background job: the monitor
goroutine cancels it after the delivery, so by completion it is done and
`Err()` reports `context.Canceled`. -/
def canceledChildCtx : CtxWait := { cancelled := true, err := some ctxCanceled }

/-- The `Background` struct of common.go (`Cancel` is the child scope's cancel
function, not itself modelled). -/
structure BackgroundM where
  ctx : Option CtxWait
  done : Option DoneChan
deriving DecidableEq, Repr

/-- Observable steps of a background job's lifetime, in program order. -/
inductive BgEvent
  | waitCompleted
  | outputCollected
  | runnableClosed
  | resultDelivered (r : ResultM)
  | doneChanClosed
  | scopeCancelled
deriving DecidableEq, Repr

/-- The deliveries contained in an event trace. -/
def deliveredResults (evts : List BgEvent) : List ResultM :=
  evts.filterMap (fun e => match e with | .resultDelivered r => some r | _ => none)

/-- How `executil.StartBackground` comes out: a Background handle, a returned
error, or the panic propagating out of `runnable.StartBackground`. -/
inductive BgOutcome
  | ok (bg : BackgroundM)
  | error (e : GoErr)
  | panicked
deriving DecidableEq, Repr

/-- `StartBackground` from executil.go, with its monitoring goroutine run to
completion (it is the only sender on the channel; `wo` fixes what `cmd.Wait`
reports). When `run.StartBackground` returns an error the runnable is closed
and the child scope cancelled before the error is returned, and nothing is
delivered; when it panics the panic unwinds through `StartBackground` before
that cleanup, so no event happens at all. On success the monitor waits,
collects output, closes the runnable (folding a close error into the Result
only when no primary error is present), performs the `sync.Once`-guarded
delivery-and-close of the channel, then cancels the child scope; the returned
handle stores the child scope context, cancelled by then. The event trace
records this order. -/
def startBackgroundM (h : Heap) (c : Ctx) (env : OsEnv) (sha : List Nat → Digest)
    (rs : RunnerState) (r : RunnableState) (args : List (List Char))
    (stdin stdout stderr : Option StdBinding) (combined : Bool) (wo : WaitOutcome) :
    BgOutcome × List BgEvent × RunnerState :=
  let cmd0 := commandContext (rName r) args
  let cmd1 := { cmd0 with stdin := stdin, stdout := stdout, stderr := stderr }
  match runnableStartBackground h c env sha rs r cmd1 combined with
  | (rs1, _, .panicked) => (.panicked, [], rs1)
  | (rs1, _, .error e) =>
    (.error e, [.runnableClosed, .scopeCancelled], rs1)
  | (rs1, r1, .ok startedCmd cap buffered) =>
    let (res0, _) := waitCommand wo cap buffered startedCmd
    let (_, closeErr) := rClose r1
    let res :=
      match closeErr, res0.error with
      | some ce, none => { res0 with error := some ce }
      | _, _ => res0
    let chan : DoneChan := { buffer := [res], closed := true }
    (.ok { ctx := some canceledChildCtx, done := some chan },
     [.waitCompleted, .outputCollected, .runnableClosed,
      .resultDelivered res, .doneChanClosed, .scopeCancelled],
     rs1)

/-- A channel receive that would not block: a buffered Result (ok), or the
closed-and-drained zero read (not ok); `none` when the receive would block. -/
def chanRecvReady (ch : DoneChan) : Option (ResultM × Bool) :=
  match ch.buffer with
  | res :: _ => some (res, true)
  | [] => if ch.closed then some (zeroResult, false) else none

/-- `WaitWithContext` from common.go: a nil receiver or nil `Done` channel
yields the zero Result; a nil context is replaced by the background context.
The `select` then receives from the channel (a closed-and-drained receive
yields the zero Result, a buffered Result is returned) or, when the context is
done, returns a Result carrying `ctx.Err()`. When both cases are ready Go
picks one pseudo-randomly; `recvFirst` stands for that scheduler choice.
`none` stands for a select with neither case ready, which blocks. -/
def waitWithContext (bg : Option BackgroundM) (ctx : Option CtxWait)
    (recvFirst : Bool) : Option ResultM :=
  match bg with
  | none => some zeroResult
  | some b =>
    let c := match ctx with
      | none => backgroundCtx
      | some cw => cw
    match b.done with
    | none => some zeroResult
    | some ch =>
      match chanRecvReady ch with
      | some (res, ok) =>
        if c.cancelled && !recvFirst then some { zeroResult with error := c.err }
        else some (if ok then res else zeroResult)
      | none => if c.cancelled then some { zeroResult with error := c.err } else none

/-- `Wait` from common.go: zero Result on a nil receiver, else
`WaitWithContext` on the stored context (the background context when that is
nil), under the same scheduler choice. -/
def bgWait (bg : Option BackgroundM) (recvFirst : Bool) : Option ResultM :=
  match bg with
  | none => some zeroResult
  | some b =>
    let c := match b.ctx with
      | none => backgroundCtx
      | some cw => cw
    waitWithContext (some b) (some c) recvFirst

/-! ## Concrete demo values used by witnesses and counterexamples -/

/-- A concrete 32-byte digest. -/
def demoDigest : Digest := List.replicate 32 1

/-- A second, distinct 32-byte digest. -/
def demoDigest2 : Digest := List.replicate 32 9

/-- A concrete heap holding one policy: default DENY, allow set `{demoDigest}`,
empty deny set (cells 0 and 1). -/
def demoHeap : Heap := ⟨[[demoDigest], []], [⟨.DENY, 0, 1⟩]⟩

/-! ## C1 -/

/-- C1: policy evaluation (`enforcePolicy`/`CheckPolicy`) returns ALLOW (nil
error) when no policy is attached to the context; otherwise it returns DENY
exactly when the digest is in the deny set, else ALLOW when the digest is in
the allow set, else the default verdict — deny-set membership takes precedence
over allow-set membership (the first conjunct holds with no assumption on the
allow set), which takes precedence over the default. -/
theorem c1_policy_evaluation_order (h : Heap) (c : Ctx) (d : Digest) (hexd : List Char) :
    (c.policy = none → checkPolicy h c d hexd = none) ∧
    (∀ ix p, c.policy = some ix → h.policies[ix]? = some p →
      ((d ∈ readSet h p.denyIx → checkPolicy h c d hexd = some ⟨.DENY, hexd⟩) ∧
       (d ∉ readSet h p.denyIx → d ∈ readSet h p.allowIx → checkPolicy h c d hexd = none) ∧
       (d ∉ readSet h p.denyIx → d ∉ readSet h p.allowIx →
         checkPolicy h c d hexd =
           (if p.defaultVerdict = .DENY then some ⟨.DENY, hexd⟩ else none)))) := by
  constructor
  · intro hc
    simp [checkPolicy, hc]
  · intro ix p hc hp
    refine ⟨?_, ?_, ?_⟩
    · intro hd
      simp [checkPolicy, hc, evaluate, hp, hd]
    · intro hnd ha
      simp [checkPolicy, hc, evaluate, hp, hnd, ha]
    · intro hnd hna
      cases hv : p.defaultVerdict <;>
        simp [checkPolicy, hc, evaluate, hp, hnd, hna, hv]

/-- Witness for C1 at the concrete demo policy: the allowed digest evaluates
to nil and an unknown digest falls to the DENY default. -/
theorem c1_policy_evaluation_order_witness :
    checkPolicy demoHeap ⟨some 0⟩ demoDigest [] = none ∧
    checkPolicy demoHeap ⟨some 0⟩ demoDigest2 [] = some ⟨.DENY, []⟩ := by
  constructor
  · exact ((c1_policy_evaluation_order demoHeap ⟨some 0⟩ demoDigest []).2
      0 ⟨.DENY, 0, 1⟩ rfl (by decide)).2.1 (by decide) (by decide)
  · have := ((c1_policy_evaluation_order demoHeap ⟨some 0⟩ demoDigest2 []).2
      0 ⟨.DENY, 0, 1⟩ rfl (by decide)).2.2 (by decide) (by decide)
    simpa using this

/-! ## C10 -/

/-- A non-zero demo Result. -/
def res42 : ResultM := { exitCode := 42, error := none, combinedOutput := none }

/-- C10 counterexample: `Wait` called on a Background whose stored context is
nil but whose Done channel already holds a Result returns that Result under
either select choice, not the zero-value Result the claim asserts for every
call with a nil stored context (the repository's own
TestBackgroundWaitReturnsResult exercises this input and expects exit code
42). -/
theorem c10_nil_context_counterexample :
    bgWait (some { ctx := none, done := some { buffer := [res42], closed := false } }) true
      = some res42 ∧
    bgWait (some { ctx := none, done := some { buffer := [res42], closed := false } }) false
      = some res42 ∧
    res42 ≠ zeroResult := by
  exact ⟨rfl, rfl, by decide⟩

/-- C10 (amended): `Wait` and `WaitWithContext` never panic and never block on
the degenerate inputs, under every select choice — a nil receiver or a nil
Done channel yields the zero Result for every context; a closed-and-drained
Done channel yields the zero Result whenever the governing context is not
done, and when it is done (the normal state of a finished job, whose stored
child context the monitor has cancelled) the randomized select returns either
the zero Result or a Result carrying `ctx.Err()`, never blocking; a nil stored
or supplied context does not yield the zero Result by itself but is replaced
by the background context, after which waiting proceeds normally. -/
theorem c10_wait_totality (b : BackgroundM) (ctx : Option CtxWait) (pick : Bool) :
    (bgWait none pick = some zeroResult) ∧
    (waitWithContext none ctx pick = some zeroResult) ∧
    (b.done = none → bgWait (some b) pick = some zeroResult) ∧
    (b.done = none → waitWithContext (some b) ctx pick = some zeroResult) ∧
    (b.done = some { buffer := [], closed := true } →
      waitWithContext (some b) none pick = some zeroResult) ∧
    (b.done = some { buffer := [], closed := true } → ∀ cw : CtxWait,
      cw.cancelled = false → waitWithContext (some b) (some cw) pick = some zeroResult) ∧
    (b.done = some { buffer := [], closed := true } → ∀ cw : CtxWait,
      waitWithContext (some b) (some cw) pick = some zeroResult ∨
      waitWithContext (some b) (some cw) pick
        = some { zeroResult with error := cw.err }) ∧
    (waitWithContext (some b) none pick
      = waitWithContext (some b) (some backgroundCtx) pick) ∧
    (b.ctx = none → bgWait (some b) pick
      = waitWithContext (some b) (some backgroundCtx) pick) := by
  refine ⟨rfl, rfl, ?_, ?_, ?_, ?_, ?_, ?_, ?_⟩
  · intro hd
    simp [bgWait, waitWithContext, hd]
  · intro hd
    cases ctx <;> simp [waitWithContext, hd]
  · intro hd
    simp [waitWithContext, hd, chanRecvReady, backgroundCtx, zeroResult]
  · intro hd cw hc
    simp [waitWithContext, hd, chanRecvReady, hc, zeroResult]
  · intro hd cw
    by_cases hc : cw.cancelled <;> cases pick <;>
      simp [waitWithContext, hd, chanRecvReady, hc, zeroResult]
  · rfl
  · intro hc
    simp [bgWait, hc]

/-- Witness for C10 (amended): a Background with nil stored context and nil
Done channel yields the zero Result. -/
theorem c10_wait_totality_witness :
    bgWait (some { ctx := none, done := none }) true = some zeroResult :=
  (c10_wait_totality { ctx := none, done := none } none true).2.2.1 rfl

/-! ## C3 -/

/-- A handle with an empty name is not memfd backed. -/
theorem isMemfd_of_nil_name (r : RunnableState) (h : r.name = []) : isMemfd r = false := by
  unfold isMemfd
  rw [h]
  rfl

/-- A list is a Boolean prefix of itself followed by anything. -/
theorem isPrefixOf_append_self (l r : List Char) : l.isPrefixOf (l ++ r) = true := by
  rw [List.isPrefixOf_iff_prefix]
  exact List.prefix_append l r

/-- The emrun.Open result is a success carrying a memfd-backed handle. -/
def emrunOpenMemfdOk (x : Except GoErr RunnableState) : Bool :=
  match x with
  | .ok r => isMemfd r
  | .error _ => false

/-- The result is the EmptyPayload error. -/
def isEmptyPayloadErr (x : Except GoErr RunnableState) : Bool :=
  match x with
  | .error e => e == .errPayloadIsEmpty
  | .ok _ => false

/-- A fixed hash function for concrete scenarios (the engine treats SHA-256 as
an external primitive; no claim depends on its values). -/
def demoSha : List Nat → Digest := fun _ => List.replicate 32 2

/-- An environment where every OS operation succeeds and memfd is available. -/
def memfdOkEnv : OsEnv :=
  { memfdErr := none, memfdNum := 3, memfdWriteErr := none, createTempErr := none,
    tempDir := "/tmp".toList, tempRand := "x1".toList, tempWriteErr := none,
    tempCloseErr := none, chmodErr := none, reopenErr := none }

/-- C3 counterexample: emrun.Open on the empty payload, with memfd creation
succeeding, returns a memfd-backed handle and no error at all — it neither
fails with EmptyPayload nor avoids creating a backing object, so the claim
fails for the memfd-preferring package. -/
theorem c3_open_empty_counterexample :
    emrunOpenMemfdOk (openEmrun memfdOkEnv demoSha []) = true ∧
    isEmptyPayloadErr (openEmrun memfdOkEnv demoSha []) = false := by
  exact ⟨rfl, rfl⟩

/-- C3 (amended): efrun.Open rejects the empty payload with the EmptyPayload
error before creating any backing (no temporary file exists on return);
emrun.Open performs no empty-payload check — with memfd available it returns a
memfd-backed handle for the empty payload, and with memfd creation failing it
returns ERR_NOT_AN_INMEMORY_FD (the open-time fallback rejects the handle
whose name is still empty), not EmptyPayload. -/
theorem c3_open_empty_payload (env : OsEnv) (sha : List Nat → Digest) :
    (openEfrun env sha [] = (.error .errPayloadIsEmpty, [])) ∧
    (env.memfdErr = none → env.memfdWriteErr = none →
      emrunOpenMemfdOk (openEmrun env sha []) = true) ∧
    (∀ e, env.memfdErr = some e → openEmrun env sha [] = .error .errNotInmemoryFd) := by
  refine ⟨rfl, ?_, ?_⟩
  · intro h1 h2
    simp only [openEmrun, h1, h2, emrunOpenMemfdOk]
    exact isPrefixOf_append_self _ _
  · intro e he
    have hm : isMemfd
        ({ payload := [], file := none, closerPresent := false, name := [],
           sha256hex := hexEncode (sha []), sha256 := List.replicate 32 0,
           deleteOnClose := false } : RunnableState) = false :=
      isMemfd_of_nil_name _ rfl
    simp only [openEmrun, he, switchToTemporaryFile, hm, Bool.not_false, if_true]

/-- Witness for C3 (amended): with the all-success environment, efrun.Open
rejects the empty payload, and with memfd unavailable emrun.Open reports
ERR_NOT_AN_INMEMORY_FD. -/
theorem c3_open_empty_payload_witness :
    openEfrun memfdOkEnv demoSha [] = (.error .errPayloadIsEmpty, []) ∧
    openEmrun { memfdOkEnv with memfdErr := some .eacces } demoSha []
      = .error .errNotInmemoryFd :=
  ⟨(c3_open_empty_payload memfdOkEnv demoSha).1,
   (c3_open_empty_payload { memfdOkEnv with memfdErr := some .eacces } demoSha).2.2
     .eacces rfl⟩

/-! ## C9 -/

/-- A memfd-backed handle holding a one-byte payload. -/
def memfdRunnable2 : RunnableState :=
  { payload := [9],
    file := some
      { contents := [9], pos := 1, closed := false,
        fname := "/proc/self/fd/5".toList },
    closerPresent := true, name := "/proc/self/fd/5".toList,
    sha256hex := [], sha256 := [], deleteOnClose := false }

/-- A runner whose first start fails with a permission-class path error and
whose second (fallback) start fails too. -/
def bgPanicRunner : RunnerState :=
  { behaviors := [⟨some (.pathErr .eacces), []⟩,
                  ⟨some (.simple "exec format error".toList), []⟩],
    calls := [] }

/-- C9: the Done channel still delivers at most one Result on every path, the
delivery coming strictly after the wait and the output collection, and a
returned start error closes the runnable and cancels the child scope with
nothing delivered — but the claim's start-failure clause fails on the
fallback path: when the first start fails with a permission error on a memfd
handle, the temp-file switch succeeds and the fallback start also fails,
`runnable.StartBackground` calls `Restore` on the nil capture `StartCommand`
returned and panics instead of returning the error, so nothing is delivered,
the runnable is not closed and the child scope is not cancelled; the last
conjunct exhibits the panicking input concretely. -/
theorem c9_start_failure_panic (h : Heap) (c : Ctx) (env : OsEnv) (sha : List Nat → Digest)
    (rs : RunnerState) (r : RunnableState) (args : List (List Char))
    (stdin stdout stderr : Option StdBinding) (combined : Bool) (wo : WaitOutcome) :
    (deliveredResults
      (startBackgroundM h c env sha rs r args stdin stdout stderr combined wo).2.1).length ≤ 1 ∧
    (match startBackgroundM h c env sha rs r args stdin stdout stderr combined wo with
     | (.error _, evts, _) =>
       deliveredResults evts = [] ∧ evts = [.runnableClosed, .scopeCancelled]
     | (.panicked, evts, _) => evts = []
     | (.ok bg, evts, _) =>
       ∃ res1, bg.done = some { buffer := [res1], closed := true } ∧
         evts = [.waitCompleted, .outputCollected, .runnableClosed,
                 .resultDelivered res1, .doneChanClosed, .scopeCancelled]) ∧
    ((startBackgroundM emptyHeap ⟨none⟩ memfdOkEnv demoSha bgPanicRunner memfdRunnable2
        [] none none none false ⟨none, none⟩).1 = .panicked ∧
     (startBackgroundM emptyHeap ⟨none⟩ memfdOkEnv demoSha bgPanicRunner memfdRunnable2
        [] none none none false ⟨none, none⟩).2.1 = []) := by
  refine ⟨?_, ?_, ?_, ?_⟩
  · unfold startBackgroundM
    rcases h1 : runnableStartBackground h c env sha rs r
        { commandContext (rName r) args with stdin := stdin, stdout := stdout, stderr := stderr }
        combined with ⟨rs1, r1, res⟩
    cases res with
    | error e =>
      simp only [h1]
      simp [deliveredResults]
    | panicked =>
      simp only [h1]
      simp [deliveredResults]
    | ok cmdS cap buffered =>
      simp only [h1]
      simp [deliveredResults]
  · unfold startBackgroundM
    rcases h1 : runnableStartBackground h c env sha rs r
        { commandContext (rName r) args with stdin := stdin, stdout := stdout, stderr := stderr }
        combined with ⟨rs1, r1, res⟩
    cases res with
    | error e =>
      simp only [h1]
      simp [deliveredResults]
    | panicked =>
      simp only [h1]
    | ok cmdS cap buffered =>
      simp only [h1]
      exact ⟨_, rfl, rfl⟩
  · decide
  · decide

/-! ## C8 -/

/-- Seeking to the start and reading to the end of an open handle yields the
backing file's full contents. -/
theorem seek_read_roundtrip (r : RunnableState) (f : OsFile) (hf : r.file = some f)
    (hc : f.closed = false) :
    ∃ r1 n r2, rSeek r 0 .start = .ok (r1, n) ∧ rReadAll r1 = .ok (r2, f.contents) := by
  refine ⟨{ r with file := some { f with pos := (0 : Int).toNat } }, 0,
          { r with file := some { f with pos := f.contents.length } }, ?_, ?_⟩
  · simp [rSeek, hf, hc, fileSeek]
  · simp [rReadAll, hc]

/-- The efrun version of `seek_read_roundtrip`. -/
theorem ef_seek_read_roundtrip (r : EfRunnable) (f : OsFile) (hf : r.file = some f)
    (hc : f.closed = false) :
    ∃ r1 n r2, efSeek r 0 .start = .ok (r1, n) ∧ efReadAll r1 = .ok (r2, f.contents) := by
  refine ⟨{ r with file := some { f with pos := (0 : Int).toNat } }, 0,
          { r with file := some { f with pos := f.contents.length } }, ?_, ?_⟩
  · simp [efSeek, hf, hc, fileSeek]
  · simp [efReadAll, hc]

/-- C8: for every non-empty payload, opening a handle and then reading its
full contents from offset zero (Seek(0, start) then read to end) returns
exactly the original payload bytes, for the memfd backing chosen by emrun.Open
and for the temporary-file backing chosen by efrun.Open. -/
theorem c8_open_read_roundtrip (env : OsEnv) (sha : List Nat → Digest) (payload : List Nat)
    (hp : payload ≠ []) :
    (env.memfdErr = none → env.memfdWriteErr = none →
      ∀ r, openEmrun env sha payload = .ok r →
        ∃ r1 n r2, rSeek r 0 .start = .ok (r1, n) ∧ rReadAll r1 = .ok (r2, payload)) ∧
    (∀ r fs, openEfrun env sha payload = (.ok r, fs) →
      ∃ r1 n r2, efSeek r 0 .start = .ok (r1, n) ∧ efReadAll r1 = .ok (r2, payload)) := by
  constructor
  · intro h1 h2 r hr
    simp only [openEmrun, h1, h2, Except.ok.injEq] at hr
    subst hr
    have hcont : (fileWrite
        { contents := [], pos := 0, closed := false,
          fname := memfdShape ++ natDigits env.memfdNum } payload).contents = payload := by
      simp [fileWrite]
    have hrt := seek_read_roundtrip
      { payload := payload,
        file := some (fileWrite
          { contents := [], pos := 0, closed := false,
            fname := memfdShape ++ natDigits env.memfdNum } payload),
        closerPresent := true, name := memfdShape ++ natDigits env.memfdNum,
        sha256hex := hexEncode (sha payload), sha256 := List.replicate 32 0,
        deleteOnClose := false }
      (fileWrite
        { contents := [], pos := 0, closed := false,
          fname := memfdShape ++ natDigits env.memfdNum } payload) rfl rfl
    rw [hcont] at hrt
    exact hrt
  · intro r fs hr
    have hne : payload.isEmpty = false := by
      cases payload with
      | nil => exact absurd rfl hp
      | cons a l => rfl
    simp only [openEfrun, hne, Bool.false_eq_true, if_false, efWriteToTemporaryFile] at hr
    rcases hc : env.createTempErr with _ | e
    · rcases hw : env.tempWriteErr with _ | e
      · rcases hcl : env.tempCloseErr with _ | e
        · rcases hch : env.chmodErr with _ | e
          · rcases hro : env.reopenErr with _ | e
            · simp only [hc, hw, hcl, hch, hro, Prod.mk.injEq, Except.ok.injEq] at hr
              obtain ⟨hr1, -⟩ := hr
              subst hr1
              exact ef_seek_read_roundtrip
                { payload := payload,
                  file := some
                    { contents := payload, pos := 0, closed := false,
                      fname := mkTempName env (hexEncode (sha payload)) },
                  name := mkTempName env (hexEncode (sha payload)),
                  sha256hex := hexEncode (sha payload), deleteOnClose := true }
                { contents := payload, pos := 0, closed := false,
                  fname := mkTempName env (hexEncode (sha payload)) } rfl rfl
            · simp [hc, hw, hcl, hch, hro] at hr
          · simp [hc, hw, hcl, hch] at hr
        · simp [hc, hw, hcl] at hr
      · simp [hc, hw] at hr
    · simp [hc] at hr

/-- A junk handle used only as the fallback of the demo extraction. -/
def junkRunnable : RunnableState :=
  { payload := [], file := none, closerPresent := false, name := [],
    sha256hex := [], sha256 := [], deleteOnClose := false }

/-- Extract the success value of an open, with a junk fallback. -/
def okOr (d : RunnableState) (x : Except GoErr RunnableState) : RunnableState :=
  match x with
  | .ok r => r
  | .error _ => d

/-- The handle emrun.Open yields for payload `[7, 8]` in the all-success
memfd environment. -/
def demoOpened : RunnableState :=
  okOr junkRunnable (openEmrun memfdOkEnv demoSha [7, 8])

/-- A junk efrun handle used only as the fallback of the demo extraction. -/
def junkEfRunnable : EfRunnable :=
  { payload := [], file := none, name := [], sha256hex := [], deleteOnClose := false }

/-- Extract the success value of an efrun open, with a junk fallback. -/
def okOrEf (d : EfRunnable) (x : Except GoErr EfRunnable) : EfRunnable :=
  match x with
  | .ok r => r
  | .error _ => d

/-- Witness for C8 at payload `[7, 8]`: both the memfd-backed handle and the
efrun temporary-file handle read the payload back. -/
theorem c8_open_read_roundtrip_witness :
    (∃ r1 n r2, rSeek demoOpened 0 .start = .ok (r1, n) ∧ rReadAll r1 = .ok (r2, [7, 8])) ∧
    (∃ r1 n r2,
      efSeek (okOrEf junkEfRunnable (openEfrun memfdOkEnv demoSha [7, 8]).1) 0 .start
        = .ok (r1, n) ∧
      efReadAll r1 = .ok (r2, [7, 8])) :=
  ⟨(c8_open_read_roundtrip memfdOkEnv demoSha [7, 8] (by decide)).1 rfl rfl demoOpened rfl,
   (c8_open_read_roundtrip memfdOkEnv demoSha [7, 8] (by decide)).2
     (okOrEf junkEfRunnable (openEfrun memfdOkEnv demoSha [7, 8]).1)
     (openEfrun memfdOkEnv demoSha [7, 8]).2 rfl⟩

/-! ## Helper lemmas about the run path (used by C2 and C6) -/

/-- `ensureDigest` touches only the digest caches. -/
theorem ensureDigest_fields (sha : List Nat → Digest) (r : RunnableState) :
    (ensureDigest sha r).1.name = r.name ∧
    (ensureDigest sha r).1.payload = r.payload ∧
    (ensureDigest sha r).1.file = r.file ∧
    (ensureDigest sha r).1.closerPresent = r.closerPresent ∧
    (ensureDigest sha r).1.deleteOnClose = r.deleteOnClose := by
  unfold ensureDigest
  split <;> simp

/-- The command as the runner sees it: capture redirects stdout and stderr
into the shared buffer when combined output is requested. -/
def capturedCmd (cmd : Cmd) (combined : Bool) : Cmd :=
  if combined then { cmd with stdout := some .captureBuf, stderr := some .captureBuf }
  else cmd

/-- One `RunCommand` call with a queued behaviour: the behaviour is consumed,
the capture-shaped command is recorded, the behaviour's error is returned, and
the command is handed back restored to its original bindings. -/
theorem runCommand_first (rs : RunnerState) (cmd : Cmd) (combined : Bool)
    (b1 : Behavior) (rest : List Behavior) (hb : rs.behaviors = b1 :: rest)
    (hcomb : combined = true → cmd.stdout = none ∧ cmd.stderr = none) :
    (runCommand rs cmd combined).1
        = { behaviors := rest, calls := rs.calls ++ [capturedCmd cmd combined] } ∧
    (runCommand rs cmd combined).2.2.1 = b1.err ∧
    (runCommand rs cmd combined).2.2.2 = cmd := by
  cases combined with
  | false =>
    simp [runCommand, newCommandCapture, runnerInvoke, captureFinish, hb, capturedCmd]
  | true =>
    obtain ⟨ho, he⟩ := hcomb rfl
    obtain ⟨p, a, ev, d, si, so, se, ex, sy, w⟩ := cmd
    simp only at ho he
    subst ho he
    simp [runCommand, newCommandCapture, runnerInvoke, captureFinish, hb, capturedCmd]

/-- `errors.Is` matches an error against itself. -/
theorem errorsIs_self (e : GoErr) : errorsIs e e = true := by
  unfold errorsIs
  simp

/-- `errors.Is` hits through the second branch of a two-`%w` wrap. -/
theorem errorsIs_wrap2_right (p m : List Char) (a b t : GoErr)
    (hb : errorsIs b t = true) : errorsIs (.wrap2 p m a b) t = true := by
  unfold errorsIs
  simp [hb]

/-- `errors.Is` hits through the first branch of a two-`%w` wrap. -/
theorem errorsIs_wrap2_left (p m : List Char) (a b t : GoErr)
    (ha : errorsIs a t = true) : errorsIs (.wrap2 p m a b) t = true := by
  unfold errorsIs
  simp [ha]

/-! ## C6 -/

/-- C6: for a memfd-backed runnable whose first invocation fails with a
permission-class error, when the fallback transition itself fails (the
empty-payload case being one instance) Run returns the single joined error
wrapping both the original permission error and the fallback error: errors.Is
matches each of them (and every target the fallback cause matches, e.g.
ERR_PAYLOAD_IS_EMPTY), and the message contains both messages — neither error
is dropped. -/
theorem c6_fallback_failure_joined (h : Heap) (c : Ctx) (env : OsEnv)
    (sha : List Nat → Digest) (rs : RunnerState) (r : RunnableState) (cmd : Cmd)
    (combined : Bool) (b1 : Behavior) (rest : List Behavior) (e serr : GoErr)
    (hb : rs.behaviors = b1 :: rest) (he : b1.err = some e)
    (hperm : isPermissionErr e = true) (hm : isMemfd r = true)
    (hpol : checkPolicy h c (ensureDigest sha r).2.1 (ensureDigest sha r).2.2 = none)
    (hcomb : combined = true → cmd.stdout = none ∧ cmd.stderr = none)
    (hsw : (switchToTemporaryFile env sha (ensureDigest sha r).1).2 = some serr) :
    (runnableRun h c env sha rs r cmd combined).2.2.2
      = some (.wrap2 "memfd execution failed: ".toList
          "; fallback to tempfile failed: ".toList e serr) ∧
    errorsIs (.wrap2 "memfd execution failed: ".toList
        "; fallback to tempfile failed: ".toList e serr) e = true ∧
    errorsIs (.wrap2 "memfd execution failed: ".toList
        "; fallback to tempfile failed: ".toList e serr) serr = true ∧
    (∀ t, errorsIs serr t = true →
      errorsIs (.wrap2 "memfd execution failed: ".toList
        "; fallback to tempfile failed: ".toList e serr) t = true) ∧
    errText e <:+: errText (.wrap2 "memfd execution failed: ".toList
        "; fallback to tempfile failed: ".toList e serr) ∧
    errText serr <:+: errText (.wrap2 "memfd execution failed: ".toList
        "; fallback to tempfile failed: ".toList e serr) := by
  refine ⟨?_, errorsIs_wrap2_left _ _ _ _ _ (errorsIs_self e),
    errorsIs_wrap2_right _ _ _ _ _ (errorsIs_self serr),
    fun t ht => errorsIs_wrap2_right _ _ _ _ _ ht, ?_, ?_⟩
  · have hnm : isMemfd (ensureDigest sha r).1 = true := by
      unfold isMemfd
      rw [(ensureDigest_fields sha r).1]
      exact hm
    obtain ⟨hrc1, hrc2, hrc3⟩ := runCommand_first rs cmd combined b1 rest hb hcomb
    unfold runnableRun
    rcases hE : ensureDigest sha r with ⟨r1, dg, hx⟩
    rw [hE] at hpol hnm hsw
    simp only at hpol hnm hsw
    rcases hR : runCommand rs cmd combined with ⟨rs1, out, runErr, cmdA⟩
    rw [hR] at hrc2
    simp only at hrc2
    rw [he] at hrc2
    rcases hS : switchToTemporaryFile env sha r1 with ⟨r2, se2⟩
    rw [hS] at hsw
    simp only at hsw
    simp only [hpol, hR, hrc2, hnm, hperm, hS, hsw, Bool.not_true, Bool.false_or,
      Bool.or_self, if_false]
    simp
  · exact ⟨"memfd execution failed: ".toList,
      "; fallback to tempfile failed: ".toList ++ errText serr, by simp [errText]⟩
  · exact ⟨"memfd execution failed: ".toList ++ errText e
        ++ "; fallback to tempfile failed: ".toList, [], by simp [errText]⟩

/-- A memfd-backed handle with no retained payload. -/
def memfdRunnable : RunnableState :=
  { payload := [], file := none, closerPresent := false,
    name := "/proc/self/fd/7".toList, sha256hex := [], sha256 := [],
    deleteOnClose := false }

/-- Witness for C6: on the empty-payload memfd handle whose first invocation
fails with a wrapped EACCES, Run reports the joined error and errors.Is finds
ERR_PAYLOAD_IS_EMPTY inside it. -/
theorem c6_fallback_failure_joined_witness :
    (runnableRun emptyHeap ⟨none⟩ memfdOkEnv demoSha
        { behaviors := [⟨some (.pathErr .eacces), []⟩], calls := [] }
        memfdRunnable (commandContext "/proc/self/fd/7".toList []) true).2.2.2
      = some (.wrap2 "memfd execution failed: ".toList
          "; fallback to tempfile failed: ".toList (.pathErr .eacces) .errPayloadIsEmpty) ∧
    errorsIs (.wrap2 "memfd execution failed: ".toList
        "; fallback to tempfile failed: ".toList (.pathErr .eacces) .errPayloadIsEmpty)
      .errPayloadIsEmpty = true := by
  have hth := c6_fallback_failure_joined emptyHeap ⟨none⟩ memfdOkEnv demoSha
    { behaviors := [⟨some (.pathErr .eacces), []⟩], calls := [] } memfdRunnable
    (commandContext "/proc/self/fd/7".toList []) true
    ⟨some (.pathErr .eacces), []⟩ [] (.pathErr .eacces) .errPayloadIsEmpty
    rfl rfl (by decide) (by decide) rfl (fun _ => ⟨rfl, rfl⟩) (by decide)
  exact ⟨hth.1, hth.2.2.1⟩

/-! ## C2 -/

/-- `Close` touches only the file, the closer and the delete flag. -/
theorem rClose_fields (r : RunnableState) :
    (rClose r).1.payload = r.payload ∧ (rClose r).1.name = r.name ∧
    (rClose r).1.sha256hex = r.sha256hex := by
  unfold rClose
  split <;> dsimp only <;> split <;> simp

/-- The hex cache after `ensureDigest`. -/
theorem ensureDigest_hex (sha : List Nat → Digest) (r : RunnableState) :
    (ensureDigest sha r).1.sha256hex
      = if r.sha256hex ≠ [] then r.sha256hex else hexEncode (sha r.payload) := by
  unfold ensureDigest
  split <;> simp_all

/-- Re-ensuring the digest after closing an already-ensured handle leaves the
hex cache unchanged. -/
theorem ensured_hex_stable (sha : List Nat → Digest) (r : RunnableState) :
    (ensureDigest sha ((rClose ((ensureDigest sha r).1)).1)).1.sha256hex
      = (ensureDigest sha r).1.sha256hex := by
  obtain ⟨hp1, -, hx1⟩ := rClose_fields ((ensureDigest sha r).1)
  rw [ensureDigest_hex, hp1, hx1, (ensureDigest_fields sha r).2.1,
    ensureDigest_hex sha r]
  by_cases hh : r.sha256hex = []
  · by_cases hz : hexEncode (sha r.payload) = [] <;> simp [hh, hz]
  · simp [hh]

/-- A temporary-file name is never empty. -/
theorem mkTempName_ne_nil (env : OsEnv) (hx : List Char) : mkTempName env hx ≠ [] := by
  unfold mkTempName
  cases env.tempDir <;> simp

/-- `Name` returns the stored name when it is non-empty. -/
theorem rName_of_ne_nil (r : RunnableState) (h : r.name ≠ []) : rName r = r.name := by
  unfold rName
  simp [h]

/-- `switchToTemporaryFile` under an all-success environment: no error, the
new backing is the created temporary file (named after the ensured hex digest)
marked delete-on-close, and the payload is retained. -/
theorem switch_success (env : OsEnv) (sha : List Nat → Digest) (r : RunnableState)
    (hm : isMemfd r = true) (hp : r.payload ≠ [])
    (hc1 : env.createTempErr = none) (hc2 : env.tempWriteErr = none)
    (hc3 : env.chmodErr = none) :
    ∃ r2, switchToTemporaryFile env sha r = (r2, none) ∧
      r2.name = mkTempName env ((ensureDigest sha (rClose r).1).1.sha256hex) ∧
      r2.deleteOnClose = true ∧ r2.payload = r.payload := by
  have hpe : r.payload.isEmpty = false := by
    cases hpl : r.payload with
    | nil => exact absurd hpl hp
    | cons a l => rfl
  unfold switchToTemporaryFile
  rw [hm, hpe]
  simp only [Bool.not_true, Bool.false_eq_true, if_false, hc1, hc2, hc3]
  refine ⟨_, rfl, ?_, ?_, ?_⟩
  · simp
  · simp
  · simp [(ensureDigest_fields sha (rClose r).1).2.1, (rClose_fields r).1]

/-- `capturedCmd` keeps the spawn path. -/
theorem capturedCmd_path (cmd : Cmd) (combined : Bool) :
    (capturedCmd cmd combined).path = cmd.path := by
  cases combined <;> rfl

/-- `capturedCmd` keeps the argument vector. -/
theorem capturedCmd_args (cmd : Cmd) (combined : Bool) :
    (capturedCmd cmd combined).args = cmd.args := by
  cases combined <;> rfl

/-- The capture-shaped fallback clone differs from the capture-shaped original
exactly in the spawn path and the head of the argument vector. -/
theorem capturedClone_eq (cmd : Cmd) (nm : List Char) (combined : Bool) :
    capturedCmd (cloneCommandForFallback cmd nm) combined
      = { capturedCmd cmd combined with
          path := nm, args := nm :: (capturedCmd cmd combined).args.tail } := by
  cases combined <;> cases hargs : cmd.args <;>
    simp [capturedCmd, cloneCommandForFallback, commandContext, hargs]

/-- C2: for a memfd-backed handle whose first invocation fails with a
permission-class error while the second succeeds, Run makes exactly two
invocation attempts: the first targets the original memfd backing name, and
the second is the same logical invocation with only the spawn target and the
argument vector's first element rewritten to the new temporary-file path
(environment, working directory, stdin/stdout/stderr bindings, extra file
descriptors, SysProcAttr and WaitDelay preserved verbatim); afterwards
IsMemfd() reports false, the handle owns its temporary file, and Run returns
without error. -/
theorem c2_memfd_fallback_two_attempts (h : Heap) (c : Ctx) (env : OsEnv)
    (sha : List Nat → Digest) (rs : RunnerState) (r : RunnableState) (cmd : Cmd)
    (combined : Bool) (b1 b2 : Behavior) (rest : List Behavior) (e : GoErr)
    (hb : rs.behaviors = b1 :: b2 :: rest) (hcalls : rs.calls = [])
    (he : b1.err = some e) (hperm : isPermissionErr e = true) (hok : b2.err = none)
    (hm : isMemfd r = true) (hp : r.payload ≠ [])
    (hpol : checkPolicy h c (ensureDigest sha r).2.1 (ensureDigest sha r).2.2 = none)
    (hcomb : combined = true → cmd.stdout = none ∧ cmd.stderr = none)
    (hcmd : cmd.path = r.name)
    (hc1 : env.createTempErr = none) (hc2 : env.tempWriteErr = none)
    (hc3 : env.chmodErr = none)
    (hnm : memfdShape.isPrefixOf (mkTempName env (ensureDigest sha r).1.sha256hex)
      = false) :
    ∃ rsF rF out,
      runnableRun h c env sha rs r cmd combined = (rsF, rF, out, none) ∧
      rsF.calls.length = 2 ∧
      (∃ c0 c1, rsF.calls = [c0, c1] ∧ c0.path = r.name ∧
        c1 = { c0 with path := rF.name, args := rF.name :: c0.args.tail }) ∧
      isMemfd rF = false ∧ rF.deleteOnClose = true := by
  have hme : isMemfd (ensureDigest sha r).1 = true := by
    unfold isMemfd
    rw [(ensureDigest_fields sha r).1]
    exact hm
  have hpe : (ensureDigest sha r).1.payload ≠ [] := by
    rw [(ensureDigest_fields sha r).2.1]
    exact hp
  obtain ⟨r2, hS, hname2, hdel2, hpay2⟩ :=
    switch_success env sha ((ensureDigest sha r).1) hme hpe hc1 hc2 hc3
  rw [ensured_hex_stable] at hname2
  have hr2nm : r2.name ≠ [] := by
    rw [hname2]
    exact mkTempName_ne_nil env _
  have hmem2 : isMemfd r2 = false := by
    unfold isMemfd
    rw [hname2]
    exact hnm
  have hcombF : combined = true →
      (cloneCommandForFallback cmd (rName r2)).stdout = none ∧
      (cloneCommandForFallback cmd (rName r2)).stderr = none := by
    intro hT
    obtain ⟨ho, hs⟩ := hcomb hT
    exact ⟨ho, hs⟩
  have hR : ∃ out1, runCommand rs cmd combined
      = ({ behaviors := b2 :: rest, calls := rs.calls ++ [capturedCmd cmd combined] },
         out1, some e, cmd) := by
    rcases hx0 : runCommand rs cmd combined with ⟨a, b, c2, d⟩
    obtain ⟨h1, h2, h3⟩ := runCommand_first rs cmd combined b1 (b2 :: rest) hb hcomb
    rw [hx0] at h1 h2 h3
    simp only at h1 h2 h3
    refine ⟨b, ?_⟩
    rw [h1, h3, h2, he]
  obtain ⟨out1, hR⟩ := hR
  have hR2 : ∃ out2, runCommand
        { behaviors := b2 :: rest, calls := rs.calls ++ [capturedCmd cmd combined] }
        (cloneCommandForFallback cmd (rName r2)) combined
      = ({ behaviors := rest,
           calls := rs.calls ++ [capturedCmd cmd combined]
             ++ [capturedCmd (cloneCommandForFallback cmd (rName r2)) combined] },
         out2, none, cloneCommandForFallback cmd (rName r2)) := by
    rcases hx0 : runCommand
        { behaviors := b2 :: rest, calls := rs.calls ++ [capturedCmd cmd combined] }
        (cloneCommandForFallback cmd (rName r2)) combined with ⟨a, b, c2, d⟩
    obtain ⟨h1, h2, h3⟩ := runCommand_first
      { behaviors := b2 :: rest, calls := rs.calls ++ [capturedCmd cmd combined] }
      (cloneCommandForFallback cmd (rName r2)) combined b2 rest rfl hcombF
    rw [hx0] at h1 h2 h3
    simp only at h1 h2 h3
    refine ⟨b, ?_⟩
    rw [h1, h3, h2, hok]
  obtain ⟨out2, hR2⟩ := hR2
  unfold runnableRun
  rcases hE : ensureDigest sha r with ⟨r1, dg, hx⟩
  rw [hE] at hpol hme hS
  simp only at hpol hme hS
  refine ⟨{ behaviors := rest,
            calls := rs.calls ++ [capturedCmd cmd combined]
              ++ [capturedCmd (cloneCommandForFallback cmd (rName r2)) combined] },
          r2, out2, ?_, ?_, ?_, hmem2, hdel2⟩
  · simp only [hpol, hR, hme, hperm, hS, hR2, Bool.not_true, Bool.false_or,
      Bool.or_self, if_false]
    simp
  · simp only [hpol, hR, hme, hperm, hS, hR2, Bool.not_true, Bool.false_or,
      Bool.or_self, if_false]
    simp [hcalls]
  · simp only [hpol, hR, hme, hperm, hS, hR2, Bool.not_true, Bool.false_or,
      Bool.or_self, if_false]
    refine ⟨capturedCmd cmd combined,
      capturedCmd (cloneCommandForFallback cmd (rName r2)) combined, ?_, ?_, ?_⟩
    · simp [hcalls]
    · rw [capturedCmd_path]
      exact hcmd
    · rw [capturedClone_eq, rName_of_ne_nil r2 hr2nm]

/-- Witness for C2: the concrete EACCES-then-success scenario makes exactly
two attempts, first at the memfd path, then at the rewritten clone, leaving a
non-memfd delete-on-close handle. -/
theorem c2_memfd_fallback_two_attempts_witness :
    ∃ rsF rF out,
      runnableRun emptyHeap ⟨none⟩ memfdOkEnv demoSha
          { behaviors := [⟨some (.pathErr .eacces), []⟩, ⟨none, [104]⟩], calls := [] }
          memfdRunnable2 (commandContext "/proc/self/fd/5".toList []) true
        = (rsF, rF, out, none) ∧
      rsF.calls.length = 2 ∧
      (∃ c0 c1, rsF.calls = [c0, c1] ∧ c0.path = memfdRunnable2.name ∧
        c1 = { c0 with path := rF.name, args := rF.name :: c0.args.tail }) ∧
      isMemfd rF = false ∧ rF.deleteOnClose = true :=
  c2_memfd_fallback_two_attempts emptyHeap ⟨none⟩ memfdOkEnv demoSha
    { behaviors := [⟨some (.pathErr .eacces), []⟩, ⟨none, [104]⟩], calls := [] }
    memfdRunnable2 (commandContext "/proc/self/fd/5".toList []) true
    ⟨some (.pathErr .eacces), []⟩ ⟨none, [104]⟩ [] (.pathErr .eacces)
    rfl rfl rfl (by decide) rfl (by decide) (by decide) rfl
    (fun _ => ⟨rfl, rfl⟩) rfl rfl rfl rfl (by decide)

/-! ## C7 -/

/-- Character classes of a hex digit character. -/
theorem hexDigitChar_classes (n : Nat) (h : n < 16) :
    isHexChar (hexDigitChar n) = true ∧ isSpaceChar (hexDigitChar n) = false ∧
    hexDigitChar n ≠ '\n' ∧ hexDigitChar n ≠ '\r' ∧ hexDigitChar n ≠ '#' := by
  interval_cases n <;> exact (by decide)

/-- Every character of a hex encoding is a hex digit and none is whitespace,
a line break, or a comment marker. -/
theorem hexEncode_chars (bs : List Nat) :
    ∀ c ∈ hexEncode bs, isHexChar c = true ∧ isSpaceChar c = false ∧
      c ≠ '\n' ∧ c ≠ '\r' ∧ c ≠ '#' := by
  induction bs with
  | nil => simp [hexEncode]
  | cons b rest ih =>
    intro c hc
    simp only [hexEncode, List.map_cons, List.flatten_cons, List.mem_append] at hc
    rcases hc with hc | hc
    · simp only [encodeByte, List.mem_cons, List.mem_singleton] at hc
      rcases hc with hc | hc | hc
      · subst hc
        exact hexDigitChar_classes _ (by omega)
      · subst hc
        exact hexDigitChar_classes _ (by omega)
      · cases hc
    · exact ih c hc

/-- A hex encoding has twice as many characters as bytes. -/
theorem hexEncode_length (bs : List Nat) : (hexEncode bs).length = 2 * bs.length := by
  induction bs with
  | nil => rfl
  | cons b rest ih =>
    simp only [hexEncode, List.map_cons, List.flatten_cons, List.length_append,
      List.length_cons] at ih ⊢
    simp [encodeByte, ih]
    omega

/-- `hexDigitVal` inverts `hexDigitChar` below 16. -/
theorem hexDigitVal_hexDigitChar (n : Nat) (h : n < 16) :
    hexDigitVal (hexDigitChar n) = some n := by
  interval_cases n <;> exact (by decide)

/-- Decoding inverts encoding for byte values. -/
theorem hexDecode_hexEncode (bs : List Nat) (h : ∀ b ∈ bs, b < 256) :
    hexDecode (hexEncode bs) = some bs := by
  induction bs with
  | nil => rfl
  | cons b rest ih =>
    have hb : b < 256 := h b (by simp)
    have h1 : (b % 256) / 16 < 16 := by omega
    have h2 : b % 16 < 16 := by omega
    have hrest : hexDecode (hexEncode rest) = some rest :=
      ih (fun x hx => h x (by simp [hx]))
    show hexDecode (encodeByte b ++ hexEncode rest) = some (b :: rest)
    simp only [encodeByte, List.cons_append, List.nil_append]
    rw [hexDecode]
    rw [hexDigitVal_hexDigitChar _ h1, hexDigitVal_hexDigitChar _ h2, hrest]
    simp only [Option.some.injEq, List.cons.injEq]
    constructor
    · omega
    · trivial

/-- A whitespace-free list survives `TrimSpace` when its first and last
characters are not whitespace. -/
theorem trimSpace_eq_self_of_ends (s : List Char)
    (h1 : ∀ c, s.head? = some c → isSpaceChar c = false)
    (h2 : ∀ c, s.getLast? = some c → isSpaceChar c = false) :
    trimSpace s = s := by
  unfold trimSpace
  have hd : s.dropWhile isSpaceChar = s := by
    cases s with
    | nil => rfl
    | cons a t =>
      rw [List.dropWhile_cons, h1 a rfl]
      rfl
  rw [hd]
  have hr : s.reverse.dropWhile isSpaceChar = s.reverse := by
    cases hrev : s.reverse with
    | nil => rfl
    | cons a t =>
      have hla : s.getLast? = some a := by
        rw [← List.head?_reverse, hrev]
        rfl
      rw [List.dropWhile_cons, h2 a hla]
      rfl
  rw [hr, List.reverse_reverse]

/-- A character that is not whitespace is none of the probe characters of
`digestsFromString`. -/
theorem not_space_chars (c : Char) (h : isSpaceChar c = false) :
    c ≠ ' ' ∧ c ≠ '\t' ∧ c ≠ '\n' ∧ c ≠ '\r' := by
  unfold isSpaceChar at h
  simp only [Bool.or_eq_false_iff, decide_eq_false_iff_not] at h
  exact ⟨h.1.1.1.1.1, h.1.1.1.1.2, h.1.1.1.2, h.2⟩

/-- The scanner loop over newline-free input yields one token. -/
theorem scanLinesAux_no_newline (s : List Char) (h : ∀ c ∈ s, c ≠ '\n') :
    ∀ acc, scanLinesAux s acc = [dropCR (acc.reverse ++ s)] := by
  induction s with
  | nil => intro acc; simp [scanLinesAux]
  | cons a t ih =>
    intro acc
    have ha : a ≠ '\n' := h a (by simp)
    rw [scanLinesAux]
    simp only [ha, if_false]
    rw [ih (fun c hc => h c (by simp [hc])) (a :: acc)]
    simp

/-- `ScanLines` over non-empty, newline-free input not ending in a carriage
return yields the input as its single token. -/
theorem scanLines_single (s : List Char) (hne : s ≠ [])
    (h : ∀ c ∈ s, c ≠ '\n') (hcr : s.getLast? ≠ some '\r') :
    scanLines s = [s] := by
  unfold scanLines
  have hie : s.isEmpty = false := by
    cases s with
    | nil => exact absurd rfl hne
    | cons a t => rfl
  rw [hie]
  simp only [Bool.false_eq_true, if_false]
  rw [scanLinesAux_no_newline s h []]
  simp [dropCR, hcr]

/-- C7: for every 32-byte digest D, parsing the raw 32-byte value, its
64-character hex encoding, and a one-line checksum-file string consisting of
the hex encoding followed by whitespace and a trailing filename all yield the
identical single-element digest list. -/
theorem c7_digest_source_equivalence (D : Digest) (ws fname : List Char)
    (hlen : D.length = 32) (hbytes : ∀ b ∈ D, b < 256)
    (hws1 : ws ≠ []) (hws2 : ∀ c ∈ ws, c = ' ' ∨ c = '\t')
    (hf1 : fname ≠ []) (hf2 : ∀ c ∈ fname, c ≠ '\n' ∧ c ≠ '\r')
    (hf3 : ∀ c, fname.getLast? = some c → isSpaceChar c = false) :
    collectDigests [.raw32 D] = .ok [D] ∧
    collectDigests [.str (hexEncode D)] = .ok [D] ∧
    collectDigests [.str (hexEncode D ++ ws ++ fname)] = .ok [D] := by
  have hDne : D ≠ [] := by
    intro hD
    rw [hD] at hlen
    exact absurd hlen (by decide)
  have hhexlen : (hexEncode D).length = 64 := by
    rw [hexEncode_length, hlen]
  have hhexne : hexEncode D ≠ [] := by
    intro hx
    rw [hx] at hhexlen
    exact absurd hhexlen (by decide)
  have hhexstr : isHexString (hexEncode D) = true := by
    unfold isHexString
    have hie : (hexEncode D).isEmpty = false := by
      cases hxx : hexEncode D with
      | nil => exact absurd hxx hhexne
      | cons a t => rfl
    rw [hie]
    simp only [Bool.not_false, Bool.true_and]
    rw [List.all_eq_true]
    intro c hc
    exact (hexEncode_chars D c hc).1
  have hdecode : decodeSingleDigest (hexEncode D) = .ok [D] := by
    unfold decodeSingleDigest
    rw [hexDecode_hexEncode D hbytes]
    simp [hlen]
  refine ⟨by simp [collectDigests, collectOne], ?_, ?_⟩
  · -- the bare 64-character hex string
    have htrim : trimSpace (hexEncode D) = hexEncode D := by
      refine trimSpace_eq_self_of_ends _ ?_ ?_
      · intro c hc
        exact (hexEncode_chars D c (by
          cases hxx : hexEncode D with
          | nil => exact absurd hxx hhexne
          | cons a t =>
            rw [hxx] at hc
            simp at hc
            simp [hxx, hc])).2.1
      · intro c hc
        have hmem : c ∈ hexEncode D := by
          obtain ⟨hne9, heq9⟩ := List.mem_getLast?_eq_getLast (by rw [hc]; rfl)
          subst heq9
          exact List.getLast_mem hne9
        exact (hexEncode_chars D c hmem).2.1
    have hcontains : containsAnyOf (hexEncode D) (' ' :: '\t' :: '\n' :: '\r' :: [])
        = false := by
      unfold containsAnyOf
      rw [List.any_eq_false]
      intro c hc
      obtain ⟨n1, n2, n3, n4⟩ := not_space_chars c (hexEncode_chars D c hc).2.1
      simp [n1, n2, n3, n4]
    simp only [collectDigests, collectOne, digestsFromString, htrim, hcontains]
    have hie : (hexEncode D).isEmpty = false := by
      cases hxx : hexEncode D with
      | nil => exact absurd hxx hhexne
      | cons a t => rfl
    simp [hie, hhexlen, hhexstr, hdecode]
  · -- the checksum-file line
    set full := hexEncode D ++ ws ++ fname with hfull
    have hfne : full ≠ [] := by
      rw [hfull]
      cases hxx : hexEncode D with
      | nil => exact absurd hxx hhexne
      | cons a t => simp
    have hhead : full.head? = (hexEncode D).head? := by
      rw [hfull, List.append_assoc]
      cases hxx : hexEncode D with
      | nil => exact absurd hxx hhexne
      | cons a t => rfl
    have hlast : full.getLast? = fname.getLast? := by
      rw [hfull]
      rw [List.getLast?_append]
      cases hfn : fname with
      | nil => exact absurd hfn hf1
      | cons a t => simp [List.getLast?_cons]
    have hnolf : ∀ c ∈ full, c ≠ '\n' := by
      intro c hc
      rw [hfull] at hc
      simp only [List.append_assoc, List.mem_append] at hc
      rcases hc with hc | hc | hc
      · exact (hexEncode_chars D c hc).2.2.1
      · rcases hws2 c hc with h9 | h9 <;> simp [h9]
      · exact (hf2 c hc).1
    have hnocr : full.getLast? ≠ some '\r' := by
      rw [hlast]
      intro hx
      have := hf3 '\r' hx
      exact absurd this (by decide)
    have htrim : trimSpace full = full := by
      refine trimSpace_eq_self_of_ends _ ?_ ?_
      · intro c hc
        rw [hhead] at hc
        refine (hexEncode_chars D c ?_).2.1
        cases hxx : hexEncode D with
        | nil => exact absurd hxx hhexne
        | cons a t =>
          rw [hxx] at hc
          simp at hc
          simp [hxx, hc]
      · intro c hc
        rw [hlast] at hc
        exact hf3 c hc
    have hcontains : containsAnyOf full (' ' :: '\t' :: '\n' :: '\r' :: []) = true := by
      unfold containsAnyOf
      rw [List.any_eq_true]
      obtain ⟨w, hw⟩ := List.exists_mem_of_ne_nil ws hws1
      refine ⟨w, ?_, ?_⟩
      · rw [hfull]
        simp [hw]
      · rcases hws2 w hw with h9 | h9 <;> simp [h9]
    have hscan : scanLines full = [full] := scanLines_single full hfne hnolf hnocr
    have htake : full.take 64 = hexEncode D := by
      rw [hfull, List.append_assoc, ← hhexlen]
      exact List.take_left _ _
    have hlenge : 64 ≤ full.length := by
      rw [hfull]
      simp only [List.append_assoc, List.length_append]
      omega
    simp only [collectDigests, collectOne, digestsFromString]
    have hie : full.isEmpty = false := by
      cases hxx : full with
      | nil => exact absurd hxx hfne
      | cons a t => rfl
    rw [htrim]
    simp only [hie, Bool.false_eq_true, if_false, hcontains, Bool.false_and,
      Bool.not_true, Bool.and_self]
    rw [hscan]
    simp only [digestsFromLines, htrim]
    have hhash : full.head? ≠ some '#' := by
      rw [hhead]
      cases hxx : hexEncode D with
      | nil => exact absurd hxx hhexne
      | cons a t =>
        have := (hexEncode_chars D a (by simp [hxx])).2.2.2.2
        simp [List.head?_cons, this]
    have hie2 : full.isEmpty = false := hie
    have hnotlt : ¬(full.length < 64) := by omega
    simp only [hie2, Bool.false_eq_true, false_or, if_false]
    rw [htake]
    simp [hhash, hnotlt, hhexstr, hexDecode_hexEncode D hbytes, hlen]

/-- Witness for C7 at a concrete digest with whitespace `"  "` and filename
`"tool"`. -/
theorem c7_digest_source_equivalence_witness :
    collectDigests [.raw32 demoDigest] = .ok [demoDigest] ∧
    collectDigests [.str (hexEncode demoDigest)] = .ok [demoDigest] ∧
    collectDigests [.str (hexEncode demoDigest ++ "  ".toList ++ "tool".toList)]
      = .ok [demoDigest] :=
  c7_digest_source_equivalence demoDigest "  ".toList "tool".toList
    (by decide) (by decide) (by decide) (by decide) (by decide) (by decide)
    (by
      intro c hc
      rw [show ("tool".toList).getLast? = some 'l' from rfl] at hc
      cases hc
      decide)

/-! ## C4 and C5: the copy-on-write heap discipline -/

/-- Membership after a Go map insert. -/
theorem mem_setInsert (s : List Digest) (d x : Digest) :
    x ∈ setInsert s d ↔ x ∈ s ∨ x = d := by
  unfold setInsert
  by_cases hmem : d ∈ s
  · rw [if_pos hmem]
    constructor
    · exact fun hx => Or.inl hx
    · rintro (hx | rfl)
      · exact hx
      · exact hmem
  · rw [if_neg hmem]
    simp

/-- Membership after a Go map delete. -/
theorem mem_setDelete (s : List Digest) (d x : Digest) :
    x ∈ setDelete s d ↔ x ∈ s ∧ x ≠ d := by
  unfold setDelete
  simp [List.mem_filter]

/-- Reading back a just-written cell. -/
theorem readSet_writeSet_self (h : Heap) (i : Nat) (s : List Digest)
    (hi : i < h.sets.length) : readSet (writeSet h i s) i = s := by
  unfold readSet writeSet
  simp [List.getD_eq_getElem?_getD, List.getElem?_set_self hi]

/-- Reading an untouched cell. -/
theorem readSet_writeSet_other (h : Heap) (i : Nat) (s : List Digest) (j : Nat)
    (hij : i ≠ j) : readSet (writeSet h i s) j = readSet h j := by
  unfold readSet writeSet
  simp [List.getD_eq_getElem?_getD, List.getElem?_set_ne hij]

/-- `writeSet` keeps the cell count. -/
theorem writeSet_sets_length (h : Heap) (i : Nat) (s : List Digest) :
    (writeSet h i s).sets.length = h.sets.length := by
  simp [writeSet]

/-- Reading a pre-existing cell after allocation. -/
theorem readSet_alloc_old (h : Heap) (dv : Verdict) (al de : List Digest) (j : Nat)
    (hj : j < h.sets.length) : readSet (allocPolicy h dv al de).1 j = readSet h j := by
  unfold readSet allocPolicy
  simp [List.getD_eq_getElem?_getD, List.getElem?_append_left hj]

/-- The two freshly allocated cells hold the given contents. -/
theorem readSet_alloc_new (h : Heap) (dv : Verdict) (al de : List Digest) :
    readSet (allocPolicy h dv al de).1 h.sets.length = al ∧
    readSet (allocPolicy h dv al de).1 (h.sets.length + 1) = de := by
  unfold readSet allocPolicy
  constructor
  · show (h.sets ++ [al, de]).getD h.sets.length [] = al
    rw [List.getD_eq_getElem?_getD, List.getElem?_append_right (le_refl _)]
    simp
  · show (h.sets ++ [al, de]).getD (h.sets.length + 1) [] = de
    rw [List.getD_eq_getElem?_getD, List.getElem?_append_right (by omega)]
    simp

/-- Every clone is an allocation with the source's verdict and set copies (or
a fresh empty policy when the reference is nil or dangling). -/
theorem clonePolicy_alloc (h : Heap) (ref : Option Nat) :
    ∃ dv al de, clonePolicy h ref = allocPolicy h dv al de := by
  cases ref with
  | none => exact ⟨.ALLOW, [], [], rfl⟩
  | some ix =>
    cases hp : h.policies[ix]? with
    | none =>
      refine ⟨.ALLOW, [], [], ?_⟩
      simp [clonePolicy, hp, newExecutionPolicy]
    | some p =>
      refine ⟨p.defaultVerdict, readSet h p.allowIx, readSet h p.denyIx, ?_⟩
      simp [clonePolicy, hp]

/-- The freshly allocated policy cell. -/
theorem alloc_policies_at (h : Heap) (dv : Verdict) (al de : List Digest) :
    (allocPolicy h dv al de).1.policies[h.policies.length]?
      = some ⟨dv, h.sets.length, h.sets.length + 1⟩ := by
  unfold allocPolicy
  simp

/-- One configuration call on the shared heap, performed from some context
value: contexts are immutable Go values, so any previously derived context can
be the source of a further `WithPolicy`/`WithRule` derivation. The relation
over-approximates the call graph (any reference value is allowed), which is
sound for the invariants proved from it. -/
inductive HeapStep : Heap → Heap → Prop
  | policy (c : Ctx) (v : Verdict) (h : Heap) : HeapStep h (withPolicy h c v).1
  | rule (c : Ctx) (rule : Verdict) (sources : List DigestSource) (h : Heap) :
      HeapStep h (withRuleCatchError h c rule sources).1

/-- `applyRuleDigest` leaves the policy cells alone. -/
theorem applyRuleDigest_policies (h : Heap) (p : PolicyObj) (rule : Verdict) (d : Digest) :
    (applyRuleDigest h p rule d).policies = h.policies := by
  cases rule <;> rfl

/-- `applyRuleDigest` keeps the set-cell count. -/
theorem applyRuleDigest_sets_length (h : Heap) (p : PolicyObj) (rule : Verdict) (d : Digest) :
    (applyRuleDigest h p rule d).sets.length = h.sets.length := by
  cases rule <;> simp [applyRuleDigest, writeSet]

/-- `applyRuleDigest` touches only the two cells of its policy. -/
theorem applyRuleDigest_sets_other (h : Heap) (p : PolicyObj) (rule : Verdict) (d : Digest)
    (j : Nat) (hj1 : j ≠ p.allowIx) (hj2 : j ≠ p.denyIx) :
    (applyRuleDigest h p rule d).sets[j]? = h.sets[j]? := by
  cases rule <;>
    simp [applyRuleDigest, writeSet, List.getElem?_set_ne (Ne.symm hj1),
      List.getElem?_set_ne (Ne.symm hj2)]

/-- The insertion loop leaves the policy cells alone. -/
theorem applyRuleDigests_policies (p : PolicyObj) (rule : Verdict) (ds : List Digest) :
    ∀ h : Heap, (applyRuleDigests h p rule ds).policies = h.policies := by
  induction ds with
  | nil => intro h; rfl
  | cons d rest ih =>
    intro h
    rw [applyRuleDigests, ih, applyRuleDigest_policies]

/-- The insertion loop keeps the set-cell count. -/
theorem applyRuleDigests_sets_length (p : PolicyObj) (rule : Verdict) (ds : List Digest) :
    ∀ h : Heap, (applyRuleDigests h p rule ds).sets.length = h.sets.length := by
  induction ds with
  | nil => intro h; rfl
  | cons d rest ih =>
    intro h
    rw [applyRuleDigests, ih, applyRuleDigest_sets_length]

/-- The insertion loop touches only the two cells of its policy. -/
theorem applyRuleDigests_sets_other (p : PolicyObj) (rule : Verdict) (ds : List Digest)
    (j : Nat) (hj1 : j ≠ p.allowIx) (hj2 : j ≠ p.denyIx) :
    ∀ h : Heap, (applyRuleDigests h p rule ds).sets[j]? = h.sets[j]? := by
  induction ds with
  | nil => intro h; rfl
  | cons d rest ih =>
    intro h
    rw [applyRuleDigests, ih, applyRuleDigest_sets_other h p rule d j hj1 hj2]

/-- Any single configuration step preserves every pre-existing cell (clones
allocate fresh cells and only mutate those). -/
theorem heapStep_mono (h h' : Heap) (st : HeapStep h h') :
    h.sets.length ≤ h'.sets.length ∧ h.policies.length ≤ h'.policies.length ∧
    (∀ i, i < h.sets.length → h'.sets[i]? = h.sets[i]?) ∧
    (∀ i, i < h.policies.length → h'.policies[i]? = h.policies[i]?) := by
  cases st with
  | policy c v h =>
    obtain ⟨dv, al, de, hcl⟩ := clonePolicy_alloc h c.policy
    simp only [withPolicy, hcl, allocPolicy]
    refine ⟨by simp, by simp, ?_, ?_⟩
    · intro i hi
      simp [List.getElem?_append_left hi]
    · intro i hi
      rw [List.getElem?_set_ne (by omega)]
      simp [List.getElem?_append_left hi]
  | rule c rule sources h =>
    by_cases hs : sources.isEmpty
    · simp only [withRuleCatchError, hs, if_true]
      exact ⟨le_refl _, le_refl _, fun i _ => by simp, fun i _ => by simp⟩
    · obtain ⟨dv, al, de, hcl⟩ := clonePolicy_alloc h c.policy
      simp only [withRuleCatchError, hs, Bool.false_eq_true, if_false, hcl]
      cases hcd : collectDigests sources with
      | error e =>
        simp only [allocPolicy]
        refine ⟨by simp, by simp, ?_, ?_⟩
        · intro i hi
          simp [List.getElem?_append_left hi]
        · intro i hi
          simp [List.getElem?_append_left hi]
      | ok ds =>
        have hfresh : (allocPolicy h dv al de).1.policies.getD
            (allocPolicy h dv al de).2 ⟨.ALLOW, 0, 0⟩
            = ⟨dv, h.sets.length, h.sets.length + 1⟩ := by
          rw [List.getD_eq_getElem?_getD]
          show ((allocPolicy h dv al de).1.policies[h.policies.length]?).getD _ = _
          rw [alloc_policies_at]
          rfl
        simp only [hfresh]
        refine ⟨?_, ?_, ?_, ?_⟩
        · rw [applyRuleDigests_sets_length]
          simp [allocPolicy]
        · rw [applyRuleDigests_policies]
          simp [allocPolicy]
        · intro i hi
          have hj1 : i ≠ (⟨dv, h.sets.length, h.sets.length + 1⟩ : PolicyObj).allowIx := by
            show i ≠ h.sets.length
            omega
          have hj2 : i ≠ (⟨dv, h.sets.length, h.sets.length + 1⟩ : PolicyObj).denyIx := by
            show i ≠ h.sets.length + 1
            omega
          rw [applyRuleDigests_sets_other _ _ _ _ hj1 hj2]
          simp [allocPolicy, List.getElem?_append_left hi]
        · intro i hi
          rw [applyRuleDigests_policies]
          simp [allocPolicy, List.getElem?_append_left hi]

/-- Heap evolution by any number of configuration calls. -/
def heapReaches (h h' : Heap) : Prop := Relation.ReflTransGen HeapStep h h'

/-- Pre-existing cells survive any number of configuration calls. -/
theorem heapReaches_mono (h h' : Heap) (hr : heapReaches h h') :
    h.sets.length ≤ h'.sets.length ∧ h.policies.length ≤ h'.policies.length ∧
    (∀ i, i < h.sets.length → h'.sets[i]? = h.sets[i]?) ∧
    (∀ i, i < h.policies.length → h'.policies[i]? = h.policies[i]?) := by
  induction hr with
  | refl => exact ⟨le_refl _, le_refl _, fun i _ => rfl, fun i _ => rfl⟩
  | tail hab hbc ih =>
    obtain ⟨ih1, ih2, ih3, ih4⟩ := ih
    obtain ⟨s1, s2, s3, s4⟩ := heapStep_mono _ _ hbc
    refine ⟨le_trans ih1 s1, le_trans ih2 s2, ?_, ?_⟩
    · intro i hi
      rw [s3 i (lt_of_lt_of_le hi ih1), ih3 i hi]
    · intro i hi
      rw [s4 i (lt_of_lt_of_le hi ih2), ih4 i hi]

/-- The context's policy reference and its set cells all point into the heap
(always true for references actually handed out by the configuration calls). -/
def ctxCellsValid (h : Heap) (c : Ctx) : Bool :=
  match c.policy with
  | none => true
  | some ix =>
    match h.policies[ix]? with
    | none => false
    | some p => decide (p.allowIx < h.sets.length) && decide (p.denyIx < h.sets.length)

/-- C5: deriving new contexts via WithPolicy/WithRule/WithRuleCatchError — any
number of times, from any contexts — never mutates the policy attached to a
pre-existing context: every derivation works on a clone with freshly allocated
cells, so CheckPolicy evaluated against the original context returns the same
verdict before and after the derivations. -/
theorem c5_policy_immutability (h h' : Heap) (c : Ctx) (d : Digest) (hexd : List Char)
    (hv : ctxCellsValid h c = true) (hr : heapReaches h h') :
    checkPolicy h' c d hexd = checkPolicy h c d hexd := by
  obtain ⟨hs, hp, hgs, hgp⟩ := heapReaches_mono h h' hr
  cases hcp : c.policy with
  | none =>
    unfold checkPolicy
    rw [hcp]
  | some ix =>
    unfold ctxCellsValid at hv
    rw [hcp] at hv
    dsimp only at hv
    cases hpp : h.policies[ix]? with
    | none =>
      rw [hpp] at hv
      simp at hv
    | some p =>
      rw [hpp] at hv
      simp only [Bool.and_eq_true, decide_eq_true_eq] at hv
      obtain ⟨hva, hvd⟩ := hv
      have hixlt : ix < h.policies.length := by
        by_contra hge
        rw [List.getElem?_eq_none (le_of_not_lt hge)] at hpp
        cases hpp
      have hpp2 : h'.policies[ix]? = some p := by
        rw [hgp ix hixlt, hpp]
      have hra : readSet h' p.allowIx = readSet h p.allowIx := by
        unfold readSet
        rw [List.getD_eq_getElem?_getD, List.getD_eq_getElem?_getD, hgs _ hva]
      have hrd : readSet h' p.denyIx = readSet h p.denyIx := by
        unfold readSet
        rw [List.getD_eq_getElem?_getD, List.getD_eq_getElem?_getD, hgs _ hvd]
      have heval : evaluate h' (some ix) d = evaluate h (some ix) d := by
        unfold evaluate
        dsimp only
        rw [hpp, hpp2]
        dsimp only
        rw [hra, hrd]
      unfold checkPolicy
      rw [hcp]
      dsimp only
      rw [heval]

/-- Witness for C5: a WithPolicy derivation flipping the default to ALLOW does
not change what the original context answers for an unknown digest. -/
theorem c5_policy_immutability_witness :
    checkPolicy (withPolicy demoHeap ⟨some 0⟩ .ALLOW).1 ⟨some 0⟩ demoDigest2 []
      = checkPolicy demoHeap ⟨some 0⟩ demoDigest2 [] :=
  c5_policy_immutability demoHeap (withPolicy demoHeap ⟨some 0⟩ .ALLOW).1 ⟨some 0⟩
    demoDigest2 [] (by decide)
    (Relation.ReflTransGen.single (HeapStep.policy ⟨some 0⟩ .ALLOW demoHeap))

/-! ## C4 -/

/-- Allow/deny disjointness of every policy in the heap. -/
@[reducible] def heapDisjoint (h : Heap) : Prop :=
  ∀ (i : Nat) (p : PolicyObj), h.policies[i]? = some p →
    ∀ d : Digest, d ∈ readSet h p.allowIx → d ∉ readSet h p.denyIx

/-- Structural layout of reachable heaps: policy `k` owns cells `2k`, `2k+1`. -/
@[reducible] def heapShape (h : Heap) : Prop :=
  h.sets.length = 2 * h.policies.length ∧
  ∀ (k : Nat) (p : PolicyObj), h.policies[k]? = some p →
    p.allowIx = 2 * k ∧ p.denyIx = 2 * k + 1

/-- Allocation preserves the layout and disjointness invariants when the new
policy's two sets are themselves disjoint. -/
theorem alloc_preserves_inv (h : Heap) (dv : Verdict) (al de : List Digest)
    (hshape : heapShape h) (hdisj : heapDisjoint h)
    (hdal : ∀ d, d ∈ al → d ∉ de) :
    heapShape (allocPolicy h dv al de).1 ∧ heapDisjoint (allocPolicy h dv al de).1 := by
  obtain ⟨hlen, hcells⟩ := hshape
  have happ : (allocPolicy h dv al de).1.policies
      = h.policies ++ [⟨dv, h.sets.length, h.sets.length + 1⟩] := rfl
  constructor
  · constructor
    · simp [allocPolicy]
      omega
    · intro k p hk
      rw [happ] at hk
      rcases lt_trichotomy k h.policies.length with hlt | heq | hgt
      · rw [List.getElem?_append_left hlt] at hk
        exact hcells k p hk
      · subst heq
        rw [show (h.policies ++ [(⟨dv, h.sets.length, h.sets.length + 1⟩ : PolicyObj)])[h.policies.length]? = some ⟨dv, h.sets.length, h.sets.length + 1⟩ from by simp] at hk
        cases hk
        constructor
        · simp [hlen]
        · simp [hlen]
      · rw [List.getElem?_eq_none (by simp; omega)] at hk
        cases hk
  · intro k p hk d hmem
    rw [happ] at hk
    rcases lt_trichotomy k h.policies.length with hlt | heq | hgt
    · rw [List.getElem?_append_left hlt] at hk
      obtain ⟨hpa, hpd⟩ := hcells k p hk
      have hklt : k < h.policies.length := hlt
      have hina : p.allowIx < h.sets.length := by omega
      have hind : p.denyIx < h.sets.length := by omega
      rw [readSet_alloc_old h dv al de _ hina] at hmem
      rw [readSet_alloc_old h dv al de _ hind]
      exact hdisj k p hk d hmem
    · subst heq
      rw [show (h.policies ++ [(⟨dv, h.sets.length, h.sets.length + 1⟩ : PolicyObj)])[h.policies.length]? = some ⟨dv, h.sets.length, h.sets.length + 1⟩ from by simp] at hk
      cases hk
      rw [(readSet_alloc_new h dv al de).1] at hmem
      rw [(readSet_alloc_new h dv al de).2]
      exact hdal d hmem
    · rw [List.getElem?_eq_none (by simp; omega)] at hk
      cases hk

/-- A clone is an allocation whose two sets are disjoint (copies of a
disjoint source, or empty). -/
theorem clonePolicy_alloc_disjoint (h : Heap) (ref : Option Nat)
    (hdisj : heapDisjoint h) :
    ∃ dv al de, clonePolicy h ref = allocPolicy h dv al de ∧
      (∀ d, d ∈ al → d ∉ de) := by
  cases ref with
  | none => exact ⟨.ALLOW, [], [], rfl, by simp⟩
  | some ix =>
    cases hp : h.policies[ix]? with
    | none =>
      refine ⟨.ALLOW, [], [], ?_, by simp⟩
      simp [clonePolicy, hp, newExecutionPolicy]
    | some p =>
      refine ⟨p.defaultVerdict, readSet h p.allowIx, readSet h p.denyIx, ?_, ?_⟩
      · simp [clonePolicy, hp]
      · exact hdisj ix p hp

/-- The freshly allocated policy via `getD`, as `withRuleCatchError` reads it. -/
theorem alloc_getD_fresh (h : Heap) (dv : Verdict) (al de : List Digest) :
    (allocPolicy h dv al de).1.policies.getD (allocPolicy h dv al de).2 ⟨.ALLOW, 0, 0⟩
      = ⟨dv, h.sets.length, h.sets.length + 1⟩ := by
  rw [List.getD_eq_getElem?_getD]
  show ((allocPolicy h dv al de).1.policies[h.policies.length]?).getD _ = _
  rw [alloc_policies_at]
  rfl

/-- One insertion step keeps the layout. -/
theorem applyRuleDigest_shape (h : Heap) (p : PolicyObj) (rule : Verdict) (d : Digest)
    (hshape : heapShape h) : heapShape (applyRuleDigest h p rule d) := by
  obtain ⟨hlen, hcells⟩ := hshape
  constructor
  · rw [applyRuleDigest_sets_length, applyRuleDigest_policies]
    exact hlen
  · intro k q hk
    rw [applyRuleDigest_policies] at hk
    exact hcells k q hk

/-- Reading untouched cells through one insertion step. -/
theorem readSet_applyRuleDigest_other (h : Heap) (p : PolicyObj) (rule : Verdict)
    (d : Digest) (j : Nat) (hj1 : j ≠ p.allowIx) (hj2 : j ≠ p.denyIx) :
    readSet (applyRuleDigest h p rule d) j = readSet h j := by
  unfold readSet
  rw [List.getD_eq_getElem?_getD, List.getD_eq_getElem?_getD,
    applyRuleDigest_sets_other h p rule d j hj1 hj2]

/-- The two cells of the mutated policy after one insertion step. -/
theorem applyRuleDigest_reads (h : Heap) (p : PolicyObj) (d : Digest)
    (ha : p.allowIx < h.sets.length) (hd : p.denyIx < h.sets.length)
    (hnd : p.allowIx ≠ p.denyIx) :
    (readSet (applyRuleDigest h p .ALLOW d) p.allowIx
        = setInsert (readSet h p.allowIx) d ∧
     readSet (applyRuleDigest h p .ALLOW d) p.denyIx
        = setDelete (readSet h p.denyIx) d) ∧
    (readSet (applyRuleDigest h p .DENY d) p.denyIx
        = setInsert (readSet h p.denyIx) d ∧
     readSet (applyRuleDigest h p .DENY d) p.allowIx
        = setDelete (readSet h p.allowIx) d) := by
  refine ⟨⟨?_, ?_⟩, ⟨?_, ?_⟩⟩
  · show readSet (writeSet _ p.denyIx _) p.allowIx = _
    rw [readSet_writeSet_other _ _ _ _ (Ne.symm hnd)]
    exact readSet_writeSet_self h _ _ ha
  · show readSet (writeSet _ p.denyIx _) p.denyIx = _
    rw [readSet_writeSet_self _ _ _ (by rw [writeSet_sets_length]; exact hd)]
    rw [readSet_writeSet_other _ _ _ _ hnd]
  · show readSet (writeSet _ p.allowIx _) p.denyIx = _
    rw [readSet_writeSet_other _ _ _ _ hnd]
    exact readSet_writeSet_self h _ _ hd
  · show readSet (writeSet _ p.allowIx _) p.allowIx = _
    rw [readSet_writeSet_self _ _ _ (by rw [writeSet_sets_length]; exact ha)]
    rw [readSet_writeSet_other _ _ _ _ (Ne.symm hnd)]

/-- One insertion step keeps every policy's sets disjoint: inserting into one
set deletes from the other for the mutated policy, and no other policy's cells
are touched. -/
theorem applyRuleDigest_disjoint (h : Heap) (ix : Nat) (p : PolicyObj) (rule : Verdict)
    (d : Digest) (hp : h.policies[ix]? = some p)
    (hshape : heapShape h) (hdisj : heapDisjoint h) :
    heapDisjoint (applyRuleDigest h p rule d) := by
  obtain ⟨hlen, hcells⟩ := hshape
  obtain ⟨hpa, hpd⟩ := hcells ix p hp
  have hixlt : ix < h.policies.length := by
    by_contra hge
    rw [List.getElem?_eq_none (le_of_not_lt hge)] at hp
    cases hp
  have hain : p.allowIx < h.sets.length := by omega
  have hdin : p.denyIx < h.sets.length := by omega
  have hnd : p.allowIx ≠ p.denyIx := by omega
  intro k q hk d0 hmem
  rw [applyRuleDigest_policies] at hk
  obtain ⟨hqa, hqd⟩ := hcells k q hk
  by_cases hkix : k = ix
  · subst hkix
    rw [hp] at hk
    cases hk
    cases rule with
    | ALLOW =>
      rw [((applyRuleDigest_reads h p d hain hdin hnd).1).1, mem_setInsert] at hmem
      rw [((applyRuleDigest_reads h p d hain hdin hnd).1).2, mem_setDelete]
      rcases hmem with hm | rfl
      · intro hcon
        exact (hdisj k p hp d0 hm) hcon.1
      · intro hcon
        exact hcon.2 rfl
    | DENY =>
      rw [((applyRuleDigest_reads h p d hain hdin hnd).2).2, mem_setDelete] at hmem
      rw [((applyRuleDigest_reads h p d hain hdin hnd).2).1, mem_setInsert]
      rintro (hd0 | rfl)
      · exact (hdisj k p hp d0 hmem.1) hd0
      · exact hmem.2 rfl
  · have hklt : k < h.policies.length := by
      by_contra hge
      rw [List.getElem?_eq_none (le_of_not_lt hge)] at hk
      cases hk
    have h1 : q.allowIx ≠ p.allowIx := by omega
    have h2 : q.allowIx ≠ p.denyIx := by omega
    have h3 : q.denyIx ≠ p.allowIx := by omega
    have h4 : q.denyIx ≠ p.denyIx := by omega
    rw [readSet_applyRuleDigest_other h p rule d _ h1 h2] at hmem
    rw [readSet_applyRuleDigest_other h p rule d _ h3 h4]
    exact hdisj k q hk d0 hmem

/-- The full insertion loop keeps both invariants. -/
theorem applyRuleDigests_inv (ix : Nat) (p : PolicyObj) (rule : Verdict)
    (ds : List Digest) :
    ∀ h : Heap, h.policies[ix]? = some p → heapShape h → heapDisjoint h →
      heapShape (applyRuleDigests h p rule ds) ∧
      heapDisjoint (applyRuleDigests h p rule ds) := by
  induction ds with
  | nil => exact fun h _ hs hd => ⟨hs, hd⟩
  | cons d rest ih =>
    intro h hp hs hd
    rw [applyRuleDigests]
    refine ih (applyRuleDigest h p rule d) ?_ ?_ ?_
    · rw [applyRuleDigest_policies]
      exact hp
    · exact applyRuleDigest_shape h p rule d hs
    · exact applyRuleDigest_disjoint h ix p rule d hp hs hd

/-- Overwriting the default verdict of one policy cell keeps both invariants
(`WithPolicy` does this to the freshly cloned policy). -/
theorem set_default_preserves_inv (h : Heap) (ix : Nat) (q : PolicyObj) (v : Verdict)
    (hq : h.policies[ix]? = some q)
    (hshape : heapShape h) (hdisj : heapDisjoint h) :
    heapShape { h with policies := h.policies.set ix { q with defaultVerdict := v } } ∧
    heapDisjoint { h with policies := h.policies.set ix { q with defaultVerdict := v } } := by
  obtain ⟨hlen, hcells⟩ := hshape
  have hixlt : ix < h.policies.length := by
    by_contra hge
    rw [List.getElem?_eq_none (le_of_not_lt hge)] at hq
    cases hq
  constructor
  · refine ⟨by simp [hlen], ?_⟩
    intro k p hk
    by_cases hkix : k = ix
    · subst hkix
      rw [List.getElem?_set_self hixlt] at hk
      cases hk
      exact hcells _ q hq
    · rw [List.getElem?_set_ne (fun hh => hkix hh.symm)] at hk
      exact hcells k p hk
  · intro k p hk d hmem
    by_cases hkix : k = ix
    · subst hkix
      rw [List.getElem?_set_self hixlt] at hk
      cases hk
      exact hdisj _ q hq d hmem
    · rw [List.getElem?_set_ne (fun hh => hkix hh.symm)] at hk
      exact hdisj k p hk d hmem

/-- Every configuration step keeps both invariants. -/
theorem heapStep_preserves_inv (h h' : Heap) (st : HeapStep h h')
    (hshape : heapShape h) (hdisj : heapDisjoint h) :
    heapShape h' ∧ heapDisjoint h' := by
  cases st with
  | policy c v h =>
    obtain ⟨dv, al, de, hcl, hdal⟩ := clonePolicy_alloc_disjoint h c.policy hdisj
    obtain ⟨hs1, hd1⟩ := alloc_preserves_inv h dv al de ⟨hshape.1, hshape.2⟩ hdisj hdal
    simp only [withPolicy, hcl, alloc_getD_fresh]
    exact set_default_preserves_inv (allocPolicy h dv al de).1 (allocPolicy h dv al de).2
      ⟨dv, h.sets.length, h.sets.length + 1⟩ v (alloc_policies_at h dv al de) hs1 hd1
  | rule c rule sources h =>
    by_cases hs : sources.isEmpty
    · simp only [withRuleCatchError, hs, if_true]
      exact ⟨hshape, hdisj⟩
    · obtain ⟨dv, al, de, hcl, hdal⟩ := clonePolicy_alloc_disjoint h c.policy hdisj
      obtain ⟨hs1, hd1⟩ := alloc_preserves_inv h dv al de hshape hdisj hdal
      simp only [withRuleCatchError, hs, Bool.false_eq_true, if_false, hcl]
      cases hcd : collectDigests sources with
      | error e => exact ⟨hs1, hd1⟩
      | ok ds =>
        simp only [alloc_getD_fresh]
        exact applyRuleDigests_inv h.policies.length
          ⟨dv, h.sets.length, h.sets.length + 1⟩ rule ds
          (allocPolicy h dv al de).1 (alloc_policies_at h dv al de) hs1 hd1

/-- Heaps reachable from program start by configuration calls. -/
def reachableHeap (h : Heap) : Prop := heapReaches emptyHeap h

/-- Reachable heaps satisfy both invariants. -/
theorem reachable_inv (h : Heap) (hr : reachableHeap h) :
    heapShape h ∧ heapDisjoint h := by
  induction hr with
  | refl =>
    refine ⟨⟨rfl, ?_⟩, ?_⟩
    · intro k p hk
      exact Option.noConfusion hk
    · intro i p hp
      exact Option.noConfusion hp
  | tail hab hbc ih =>
    exact heapStep_preserves_inv _ _ hbc ih.1 ih.2

/-- `WithRuleCatchError` with a single raw 32-byte digest always succeeds: it
attaches the freshly cloned policy, the rule digest is inserted into the set
matching the rule, and deleted from the opposite set. -/
theorem withRule_raw32_spec (h : Heap) (c : Ctx) (rule : Verdict) (D : Digest) :
    ∃ h2 dv,
      withRuleCatchError h c rule [.raw32 D] = (h2, ⟨some h.policies.length⟩, none) ∧
      h2.policies[h.policies.length]?
        = some ⟨dv, h.sets.length, h.sets.length + 1⟩ ∧
      (rule = .DENY →
        D ∉ readSet h2 h.sets.length ∧ D ∈ readSet h2 (h.sets.length + 1)) ∧
      (rule = .ALLOW →
        D ∈ readSet h2 h.sets.length ∧ D ∉ readSet h2 (h.sets.length + 1)) := by
  obtain ⟨dv, al, de, hcl⟩ := clonePolicy_alloc h c.policy
  have hlen1 : (allocPolicy h dv al de).1.sets.length = h.sets.length + 2 := by
    simp [allocPolicy]
  have ha : (⟨dv, h.sets.length, h.sets.length + 1⟩ : PolicyObj).allowIx
      < (allocPolicy h dv al de).1.sets.length := by
    show h.sets.length < _
    rw [hlen1]; omega
  have hd : (⟨dv, h.sets.length, h.sets.length + 1⟩ : PolicyObj).denyIx
      < (allocPolicy h dv al de).1.sets.length := by
    show h.sets.length + 1 < _
    rw [hlen1]; omega
  have hnd : (⟨dv, h.sets.length, h.sets.length + 1⟩ : PolicyObj).allowIx
      ≠ (⟨dv, h.sets.length, h.sets.length + 1⟩ : PolicyObj).denyIx := by
    show h.sets.length ≠ h.sets.length + 1
    omega
  have heq : withRuleCatchError h c rule [.raw32 D]
      = (applyRuleDigest (allocPolicy h dv al de).1
          ⟨dv, h.sets.length, h.sets.length + 1⟩ rule D,
         ⟨some h.policies.length⟩, none) := by
    simp only [withRuleCatchError, hcl]
    simp [collectDigests, collectOne, applyRuleDigests, alloc_getD_fresh]
    refine ⟨?_, rfl⟩
    show applyRuleDigest _
        (((allocPolicy h dv al de).1.policies[h.policies.length]?).getD
          ⟨.ALLOW, 0, 0⟩) rule D = _
    rw [alloc_policies_at]
    rfl
  refine ⟨_, dv, heq, ?_, ?_, ?_⟩
  · rw [applyRuleDigest_policies]
    exact alloc_policies_at h dv al de
  · rintro rfl
    obtain ⟨hins, hdel⟩ :=
      (applyRuleDigest_reads (allocPolicy h dv al de).1
        ⟨dv, h.sets.length, h.sets.length + 1⟩ D ha hd hnd).2
    constructor
    · show D ∉ readSet _ (⟨dv, h.sets.length, h.sets.length + 1⟩ : PolicyObj).allowIx
      rw [hdel, mem_setDelete]
      simp
    · show D ∈ readSet _ (⟨dv, h.sets.length, h.sets.length + 1⟩ : PolicyObj).denyIx
      rw [hins, mem_setInsert]
      exact Or.inr rfl
  · rintro rfl
    obtain ⟨hins, hdel⟩ :=
      (applyRuleDigest_reads (allocPolicy h dv al de).1
        ⟨dv, h.sets.length, h.sets.length + 1⟩ D ha hd hnd).1
    constructor
    · show D ∈ readSet _ (⟨dv, h.sets.length, h.sets.length + 1⟩ : PolicyObj).allowIx
      rw [hins, mem_setInsert]
      exact Or.inr rfl
    · show D ∉ readSet _ (⟨dv, h.sets.length, h.sets.length + 1⟩ : PolicyObj).denyIx
      rw [hdel, mem_setDelete]
      simp

/-- C4: on every heap reachable by any sequence of WithPolicy/WithRule
configuration calls, no digest is in both the allow set and the deny set of
any policy; a WithRule call stays within the reachable heaps; a DENY rule for
digest D succeeds, makes evaluate return DENY for D through the derived
context, and leaves D absent from that policy's allow set (any prior ALLOW
entry is gone) while present in its deny set; symmetrically an ALLOW rule for
D inserts D into the allow set and deletes it from the deny set. -/
theorem c4_allow_deny_disjoint (h : Heap) (c : Ctx) (D : Digest)
    (hr : reachableHeap h) :
    heapDisjoint h ∧
    reachableHeap (withRuleCatchError h c .DENY [.raw32 D]).1 ∧
    (withRuleCatchError h c .DENY [.raw32 D]).2.2 = none ∧
    evaluate (withRuleCatchError h c .DENY [.raw32 D]).1
      (withRuleCatchError h c .DENY [.raw32 D]).2.1.policy D = .DENY ∧
    (∀ ix p, (withRuleCatchError h c .DENY [.raw32 D]).2.1.policy = some ix →
      (withRuleCatchError h c .DENY [.raw32 D]).1.policies[ix]? = some p →
        D ∉ readSet (withRuleCatchError h c .DENY [.raw32 D]).1 p.allowIx ∧
        D ∈ readSet (withRuleCatchError h c .DENY [.raw32 D]).1 p.denyIx) ∧
    (withRuleCatchError h c .ALLOW [.raw32 D]).2.2 = none ∧
    (∀ ix p, (withRuleCatchError h c .ALLOW [.raw32 D]).2.1.policy = some ix →
      (withRuleCatchError h c .ALLOW [.raw32 D]).1.policies[ix]? = some p →
        D ∈ readSet (withRuleCatchError h c .ALLOW [.raw32 D]).1 p.allowIx ∧
        D ∉ readSet (withRuleCatchError h c .ALLOW [.raw32 D]).1 p.denyIx) := by
  obtain ⟨h2, dv, heq, hpol, hden, -⟩ := withRule_raw32_spec h c .DENY D
  obtain ⟨h2a, dva, heqa, hpola, -, hala⟩ := withRule_raw32_spec h c .ALLOW D
  obtain ⟨hnotallow, hindeny⟩ := hden rfl
  obtain ⟨hinallow, hnotdeny⟩ := hala rfl
  refine ⟨(reachable_inv h hr).2, ?_, ?_, ?_, ?_, ?_, ?_⟩
  · exact Relation.ReflTransGen.tail hr (HeapStep.rule c .DENY [.raw32 D] h)
  · rw [heq]
  · rw [heq]
    show evaluate h2 (some h.policies.length) D = .DENY
    unfold evaluate
    dsimp only
    rw [hpol]
    dsimp only
    rw [if_pos]
    exact hindeny
  · intro ix p hix hp
    rw [heq] at hix hp ⊢
    dsimp only at hix hp ⊢
    cases hix
    rw [hpol] at hp
    cases hp
    exact ⟨hnotallow, hindeny⟩
  · rw [heqa]
  · intro ix p hix hp
    rw [heqa] at hix hp ⊢
    dsimp only at hix hp ⊢
    cases hix
    rw [hpola] at hp
    cases hp
    exact ⟨hinallow, hnotdeny⟩

/-- Witness for C4: from the empty heap (trivially reachable), a DENY rule for
the demo digest makes evaluation of that digest through the derived context
return DENY. -/
theorem c4_allow_deny_disjoint_witness :
    reachableHeap emptyHeap ∧
    evaluate (withRuleCatchError emptyHeap ⟨none⟩ .DENY [.raw32 demoDigest]).1
      (withRuleCatchError emptyHeap ⟨none⟩ .DENY [.raw32 demoDigest]).2.1.policy
      demoDigest = .DENY :=
  ⟨Relation.ReflTransGen.refl,
   (c4_allow_deny_disjoint emptyHeap ⟨none⟩ demoDigest
      Relation.ReflTransGen.refl).2.2.2.1⟩

end Emrun
